import Mathlib

/-!
Verification of the task-orchestration core of the report_nodejs repository:
the DAG Planner (`src/agents/planner-agent.ts`), the Task State Store
(`src/services/task-state-store.ts` together with the `list_ready_tasks`
stored procedure in `supabase/migrations/20241111_create_task_state.sql`),
and the Task Dispatcher (`src/queue/task-dispatcher.ts`).

Modelling conventions, fixed once here:
* JavaScript runtime values that the orchestration code stores or moves but
  never computes with are modelled by the inductive `Val` below, including
  `undefined` and `null` as separate constructors so that JS truthiness and
  the `??` operator can be embedded faithfully.
* A TypeScript `Record<string, any>` is modelled as an association list
  `List (String × Val)` with JS object-literal spread/override semantics.
* The task-state table is keyed by `(project_id, node_id)` and every store
  operation filters on `project_id`; a `List TaskRecord` below models the
  rows of one project, and the `projectId` argument is kept only where it
  flows into job names and payloads.
* The `updated_at`/`created_at` timestamp columns (maintained by a SQL
  trigger) carry no scheduling information and are omitted.
* An absent optional `outline_structure` array is modelled as `[]`; walking
  an empty child list is indistinguishable from not walking at all.
-/

/-- OutlineNode from `src/tools/outline-parser.ts`. `chapter_number` and
`title` are declared required in the TypeScript interface, but runtime
values may lack them, which the claims about malformed entries quantify
over; they are therefore modelled as `Option String` with `none` playing
the role of `undefined`. -/
structure OutlineNode where
  chapter_number : Option String
  title : Option String
  govern_standard : Option String
  generate_prompt : Bool
  fixed_content : Option String
  enable_subtitles_generation : Bool
  outline_structure : List OutlineNode

/-- JS runtime values as stored and moved by the orchestration code. The
`onode` constructor models a reference to an `OutlineNode` object kept
inside task metadata (`metadata.outlineNode` in `buildDag`). -/
inductive Val where
  | undef
  | null
  | bool (b : Bool)
  | num (n : Int)
  | str (s : String)
  | arr (elems : List Val)
  | obj (fields : List (String × Val))
  | onode (n : OutlineNode)

/-- JS truthiness: `undefined`, `null`, `false`, `0` and `""` are falsy,
every array/object is truthy. -/
def Val.truthy : Val → Bool
  | .undef => false
  | .null => false
  | .bool b => b
  | .num n => n != 0
  | .str s => s != ""
  | _ => true

/-- JS property access `v[k]` / `v?.[k]` as used by the dispatcher: field
lookup on objects, `undefined` otherwise. (The call sites in the source
only dereference values that are guarded to be non-null objects.) -/
def Val.get (v : Val) (k : String) : Val :=
  match v with
  | .obj fields => (((fields.find? (fun p => p.1 == k)).map Prod.snd).getD .undef)
  | _ => (.undef)

/-- JS nullish coalescing `a ?? b`: `b` exactly when `a` is `undefined` or
`null`. -/
def Val.coalesce : Val → Val → Val
  | .undef, d => d
  | .null, d => d
  | v, _ => v

/-- JS string interpolation of a possibly-missing string (template literals
render `undefined` as the string "undefined"). -/
def optStr : Option String → String
  | some s => s
  | none => "undefined"

/-- A possibly-missing string stored as a JS value. -/
def optVal : Option String → Val
  | some s => .str s
  | none => (.undef)

/-- Metadata objects (`Record<string, any>`). -/
def Metadata := List (String × Val)

/-- Object-spread override `\x7b...m, k: v\x7d`: replace the value of an
existing key in place, or append a new key. -/
def mdSet (m : Metadata) (k : String) (v : Val) : Metadata :=
  if (List.any m (fun p => p.1 == k)) then
    List.map (fun p => if p.1 == k then (k, v) else p) m
  else
    List.append m [(k, v)]

/-- JS `delete obj[k]`. -/
def mdRemove (m : Metadata) (k : String) : Metadata :=
  List.filter (fun p => p.1 != k) m

/-- JS property read `m[k]`, `undefined` when missing. -/
def mdGet (m : Metadata) (k : String) : Val :=
  ((List.find? (fun p => p.1 == k) m).map Prod.snd).getD (.undef)

/-- Task kinds, from `src/agents/planner-agent.ts`. -/
inductive TaskType where
  | materialize_fixed
  | prepare
  | retrieve
  | write
  | verify
  | assemble
deriving DecidableEq, Repr

/-- TaskNode from `src/agents/planner-agent.ts`. The synthesized document
sink is built without an `outlineId` property, hence the `Option`. -/
structure TaskNode where
  id : String
  type : TaskType
  label : String
  outlineId : Option String
  dependencies : List String
  metadata : Metadata

/-- TaskEdge from `src/agents/planner-agent.ts` (`from`/`to` are reserved
words in Lean, hence the trailing underscores). -/
structure TaskEdge where
  from_ : String
  to_ : String
  reason : String

/-- Per-kind node counts of a DAG (`summary.byType`). -/
structure TaskCounts where
  materialize_fixed : Nat
  prepare : Nat
  retrieve : Nat
  write : Nat
  verify : Nat
  assemble : Nat

/-- TaskDag from `src/agents/planner-agent.ts`. -/
structure TaskDag where
  nodes : List TaskNode
  edges : List TaskEdge
  total : Nat
  byType : TaskCounts

/-- The two asset-readiness flags of `AssetIndexRecord`
(`src/services/asset-registry-service.ts`) that `buildDag` reads; the
remaining columns of the record are never consulted by the planner. -/
structure AssetIndexRecord where
  id : String
  embed_ready : Bool
  table_ready : Bool

/-- PlannerContext from `src/agents/planner-agent.ts`. -/
structure PlannerContext where
  projectId : String
  outline : List OutlineNode
  assetsIndex : List AssetIndexRecord
  projectContext : Metadata
  metrics : Val
  writingJournal : Val
  evidenceMap : Val

/-- FlattenedOutlineNode from `src/agents/planner-agent.ts`. -/
structure FlattenedOutlineNode where
  node : OutlineNode
  parentId : Option String

namespace PlannerAgent

/-- The recursive `walk` helper of `PlannerAgent.flattenOutline`: pre-order
traversal carrying the parent chapter number. -/
def flattenWalk : Option String → List OutlineNode → List FlattenedOutlineNode
  | _, [] => []
  | parent, n :: rest =>
    ⟨n, parent⟩ :: (flattenWalk n.chapter_number n.outline_structure ++ flattenWalk parent rest)
termination_by _p l => sizeOf l
decreasing_by
  all_goals simp_wf
  all_goals cases n
  all_goals simp
  all_goals omega

/-- PlannerAgent.flattenOutline. -/
def flattenOutline (outline : List OutlineNode) : List FlattenedOutlineNode :=
  flattenWalk none outline

/-- PlannerAgent.addNode: push the node unless a node with the same id was
already added (the `index.has` check). -/
def addNode (nodes : List TaskNode) (node : TaskNode) : List TaskNode :=
  if List.any nodes (fun n => n.id == node.id) then nodes else List.append nodes [node]

/-- Accumulator for the node/edge lists built by `buildDag`'s main loop. -/
structure BuildAcc where
  nodes : List TaskNode
  edges : List TaskEdge

/-- JS truthiness of the `outlineNode.fixed_content` branch test. -/
def fixedTruthy (n : OutlineNode) : Bool :=
  match n.fixed_content with
  | some s => s != ""
  | none => false

/-- The body of `buildDag`'s `for (const entry of flattened)` loop,
translated clause by clause from `src/agents/planner-agent.ts`. -/
def processEntry (ctx : PlannerContext) (hasEmbedReady hasTableReady : Bool)
    (acc : BuildAcc) (entry : FlattenedOutlineNode) : BuildAcc :=
  let outlineNode := entry.node
  let outlineId := outlineNode.chapter_number
  let chap := optStr outlineId
  let baseLabel := chap ++ " " ++ optStr outlineNode.title
  let baseMetadata : Metadata :=
    [("outlineId", optVal outlineId), ("title", optVal outlineNode.title),
     ("outlineNode", .onode outlineNode), ("parentId", optVal entry.parentId)]
  if fixedTruthy outlineNode then
    let materializeId := "materialize:" ++ chap
    let assembleId := "assemble:" ++ chap
    let nodes1 := addNode acc.nodes
      ⟨materializeId, .materialize_fixed, "渲染固定内容 " ++ baseLabel, outlineId, [],
        mdSet (mdSet baseMetadata "fixed" (.bool true)) "fixedContent" (optVal outlineNode.fixed_content)⟩
    let nodes2 := addNode nodes1
      ⟨assembleId, .assemble, "装配章节 " ++ baseLabel, outlineId, [materializeId],
        mdSet baseMetadata "from" (.str "fixed")⟩
    ⟨nodes2, List.append acc.edges [⟨materializeId, assembleId, "固定章节装配"⟩]⟩
  else
    let prepareId := "prepare:" ++ chap
    let retrieveId := "retrieve:" ++ chap
    let writeId := "write:" ++ chap
    let verifyId := "verify:" ++ chap
    let assembleId := "assemble:" ++ chap
    let nodes1 := addNode acc.nodes
      ⟨prepareId, .prepare, "准备提示词 " ++ baseLabel, outlineId, [],
        mdSet (mdSet (mdSet baseMetadata
          "contextKeys" (.arr (List.map (fun p => Val.str p.1) ctx.projectContext)))
          "projectContext" (.obj ctx.projectContext))
          "assetsAvailability" (.obj [("embedReady", .bool hasEmbedReady), ("tableReady", .bool hasTableReady)])⟩
    let shouldCreateRetrieve := hasEmbedReady || hasTableReady
    let lastDependency := if shouldCreateRetrieve then retrieveId else prepareId
    let requirements : List Val :=
      (if hasEmbedReady then [Val.str "embed_ready"] else []) ++
      (if hasTableReady then [Val.str "table_ready"] else [])
    let nodes2 :=
      if shouldCreateRetrieve then
        addNode nodes1
          ⟨retrieveId, .retrieve, "检索资料 " ++ baseLabel, outlineId, [prepareId],
            mdSet (mdSet baseMetadata "requirements" (.arr requirements))
              "assetsReady" (.obj [("embed", .bool hasEmbedReady), ("table", .bool hasTableReady)])⟩
      else nodes1
    let edges1 :=
      if shouldCreateRetrieve then
        List.append acc.edges [⟨prepareId, retrieveId, "检索前置"⟩]
      else acc.edges
    let nodes3 := addNode nodes2
      ⟨writeId, .write, "写作章节 " ++ baseLabel, outlineId, [lastDependency],
        mdSet (mdSet (mdSet (mdSet baseMetadata
          "promptSource" (.str prepareId))
          "retrievalSource" (if shouldCreateRetrieve then .str retrieveId else .undef))
          "metricsRef" (Val.get ctx.metrics chap))
          "writingJournalRef" (Val.get ctx.writingJournal chap)⟩
    let edges2 := List.append edges1 [⟨lastDependency, writeId, "写作依赖"⟩]
    let nodes4 := addNode nodes3
      ⟨verifyId, .verify, "校验章节 " ++ baseLabel, outlineId, [writeId],
        mdSet (mdSet (mdSet baseMetadata
          "journalRef" (Val.get ctx.writingJournal chap))
          "metricsRef" (Val.get ctx.metrics chap))
          "evidenceRef" (Val.get ctx.evidenceMap chap)⟩
    let edges3 := List.append edges2 [⟨writeId, verifyId, "校验前置"⟩]
    let nodes5 := addNode nodes4
      ⟨assembleId, .assemble, "装配章节 " ++ baseLabel, outlineId, [verifyId],
        mdSet baseMetadata "evidenceRef" (Val.get ctx.evidenceMap chap)⟩
    let edges4 := List.append edges3 [⟨verifyId, assembleId, "装配前置"⟩]
    ⟨nodes5, edges4⟩

/-- PlannerAgent.buildSummary (the counting loop, expressed with countP). -/
def buildSummary (nodes : List TaskNode) : Nat × TaskCounts :=
  (nodes.length,
   ⟨List.countP (fun n => n.type == .materialize_fixed) nodes,
    List.countP (fun n => n.type == .prepare) nodes,
    List.countP (fun n => n.type == .retrieve) nodes,
    List.countP (fun n => n.type == .write) nodes,
    List.countP (fun n => n.type == .verify) nodes,
    List.countP (fun n => n.type == .assemble) nodes⟩)

/-- PlannerAgent.buildDag from `src/agents/planner-agent.ts`. -/
def buildDag (ctx : PlannerContext) : TaskDag :=
  let flattened := flattenOutline ctx.outline
  let hasEmbedReady := List.any ctx.assetsIndex (fun a => a.embed_ready)
  let hasTableReady := List.any ctx.assetsIndex (fun a => a.table_ready)
  let acc := List.foldl (processEntry ctx hasEmbedReady hasTableReady) ⟨[], []⟩ flattened
  let assembleNodes := List.filter (fun n => n.type == TaskType.assemble) acc.nodes
  let acc2 :=
    if assembleNodes.length > 0 then
      let finalAssembleId := "assemble:document"
      let nodes1 := addNode acc.nodes
        ⟨finalAssembleId, .assemble, "汇总装配整份报告", none,
          List.map (fun n => n.id) assembleNodes,
          [("stage", .str "final"), ("title", .str "整份报告"), ("outlineId", .str "document")]⟩
      let edges1 := List.append acc.edges
        (List.map (fun n => (⟨n.id, finalAssembleId, "章节合并"⟩ : TaskEdge)) assembleNodes)
      (⟨nodes1, edges1⟩ : BuildAcc)
    else acc
  let summary := buildSummary acc2.nodes
  ⟨acc2.nodes, acc2.edges, summary.1, summary.2⟩

end PlannerAgent

/-- Task status column, from `src/services/task-state-store.ts`. -/
inductive TaskStatus where
  | pending
  | running
  | completed
  | failed
  | cancelled
  | blocked
deriving DecidableEq, Repr

/-- TaskRecord from `src/services/task-state-store.ts`: one row of the
`task_state` table (for the project under consideration; timestamps are
omitted, see the header). `result` is `Val.undef` when the column is NULL
and the accessor mapped it to `undefined`. -/
structure TaskRecord where
  nodeId : String
  type : TaskType
  status : TaskStatus
  dependencies : List String
  dependents : List String
  metadata : Metadata
  result : Val
  error : Option String
  retries : Nat

namespace TaskStateStore

/-- The optional fields of `updateStatus`'s partial-update argument. A
field is `none` exactly when the TypeScript value was absent or
`undefined`, which `updateStatus` treats identically
(`meta?.field !== undefined`). -/
structure UpdateMeta where
  result : Option Val
  error : Option (Option String)
  retries : Option Nat
  metadata : Option Metadata

/-- An update payload supplying no optional field. -/
def noMeta : UpdateMeta := ⟨none, none, none, none⟩

/-- Application of the supplied optional fields of an update payload. -/
def applyMeta (r : TaskRecord) (m : UpdateMeta) : TaskRecord :=
  let r1 := match m.result with | some v => { r with result := v } | none => r
  let r2 := match m.error with | some e => { r1 with error := e } | none => r1
  let r3 := match m.retries with | some n => { r2 with retries := n } | none => r2
  match m.metadata with | some md => { r3 with metadata := md } | none => r3

/-- TaskStateStore.updateStatus: set the status (and any supplied optional
fields) on every row of the project whose `node_id` matches. -/
def updateStatus (tasks : List TaskRecord) (nodeId : String) (status : TaskStatus)
    (meta : UpdateMeta) : List TaskRecord :=
  List.map (fun r => if r.nodeId == nodeId then applyMeta { r with status := status } meta else r) tasks

/-- TaskStateStore.getTask (`maybeSingle`: the first matching row). -/
def getTask (tasks : List TaskRecord) (nodeId : String) : Option TaskRecord :=
  List.find? (fun r => r.nodeId == nodeId) tasks

/-- TaskStateStore.getTasks: the rows whose `node_id` is in the list. -/
def getTasks (tasks : List TaskRecord) (nodeIds : List String) : List TaskRecord :=
  List.filter (fun r => nodeIds.contains r.nodeId) tasks

/-- The WHERE clause of the `list_ready_tasks` stored procedure
(`supabase/migrations/20241111_create_task_state.sql`): the row is
`pending` and there is no dependency id for which some row exists with a
status other than `completed`. -/
def sqlReady (tasks : List TaskRecord) (r : TaskRecord) : Bool :=
  r.status == .pending &&
    !(List.any r.dependencies (fun dep =>
        List.any tasks (fun d => d.nodeId == dep && d.status != .completed)))

/-- The row shape returned by the `list_ready_tasks` RPC: it selects
neither `result` nor `error`, so `TaskStateStore.listReadyTasks` maps those
to `undefined` resp. `null` on the returned records. -/
def stripRow (r : TaskRecord) : TaskRecord :=
  { r with result := Val.undef, error := none }

/-- TaskStateStore.listReadyTasks: the RPC filter followed by the row
mapping. -/
def listReadyTasks (tasks : List TaskRecord) : List TaskRecord :=
  List.map stripRow (List.filter (sqlReady tasks) tasks)

/-- TaskStateStore.markBlocked: bulk transition of the listed ids to
`blocked`. -/
def markBlocked (tasks : List TaskRecord) (nodeIds : List String) : List TaskRecord :=
  List.map (fun r => if nodeIds.contains r.nodeId then { r with status := TaskStatus.blocked } else r) tasks

end TaskStateStore

/-- Readiness as the specification words it (spec §3: "a task is ready iff
its own status is `pending` and every id in `dependencies` has status
`completed`"). This definition follows the spec's words and is compared
against the SQL-derived `TaskStateStore.sqlReady` in claim C2. -/
def specReadyTask (tasks : List TaskRecord) (r : TaskRecord) : Bool :=
  r.status == .pending &&
    List.all r.dependencies (fun dep =>
      List.any tasks (fun d => d.nodeId == dep && d.status == .completed))

/-- A job placed on a named queue. The BullMQ enqueue options
(`removeOnComplete`/`removeOnFail`) are queue-substrate configuration and
carry no orchestration state, so they are not modelled. -/
structure Job where
  queue : String
  name : String
  payload : Val

/-- Dispatcher-visible state: the project's task rows plus the list of
jobs enqueued so far (in order). -/
structure DState where
  tasks : List TaskRecord
  jobs : List Job

/-- Event `type` field: a task kind or the synthetic "autofix" kind. -/
inductive EvType where
  | task (t : TaskType)
  | autofix
deriving DecidableEq, Repr

/-- WorkerResultEvent from `src/queue/task-dispatcher.ts`; `result` is
`Val.undef` when absent and `error` is `none` when absent. -/
structure WorkerResultEvent where
  projectId : String
  nodeId : String
  type : EvType
  result : Val
  error : Option String

/-- Progress status reported by a worker. -/
inductive ProgressStatus where
  | running
  | failed
  | retrying
deriving DecidableEq, Repr

/-- WorkerProgressEvent from `src/queue/task-dispatcher.ts`. -/
structure WorkerProgressEvent where
  projectId : String
  nodeId : String
  type : EvType
  status : ProgressStatus
  error : Option String

/-- JS truthiness of an optional error string (`if (event.error)`). -/
def errTruthy : Option String → Bool
  | some s => s != ""
  | none => false

/-- Conversion of a possibly-`undefined` value into an `updateStatus`
payload field (the `!== undefined` guard). -/
def toUpd : Val → Option Val
  | .undef => none
  | v => some v

/-- Conversion of a possibly-absent error string into an `updateStatus`
payload field (`\x7b error: event.error \x7d` supplies the field only when
the event carries one). -/
def errUpd (e : Option String) : Option (Option String) :=
  e.map (fun s => some s)

/-- JS strict comparison `verifyResult.status === name`. -/
def statusIs (v : Val) (name : String) : Bool :=
  match v.get "status" with
  | .str s => s == name
  | _ => false

namespace TaskDispatcher

open TaskStateStore

/-- TaskDispatcher.resolveQueue: the queue name for each task kind. -/
def resolveQueue : TaskType → String
  | .materialize_fixed => "materializer"
  | .prepare => "planner"
  | .retrieve => "retriever"
  | .write => "writer"
  | .verify => "verifier"
  | .assemble => "assembler"

/-- TaskDispatcher.buildJobPayload, translated case by case. The `find`
over fetched dependency rows and the `??` fallback chains follow the
source; `?.` chains are modelled by `Val.get`, which yields `undefined`
on `undefined`. -/
def buildJobPayload (tasks : List TaskRecord) (projectId : String) (task : TaskRecord) : Val :=
  let dependencies := getTasks tasks task.dependencies
  let findResult := fun (nodeId : String) =>
    (((dependencies.find? (fun dep => dep.nodeId == nodeId)).map (fun dep => dep.result)).getD Val.undef)
  let md := task.metadata
  match task.type with
  | .materialize_fixed =>
    .obj [("projectId", .str projectId), ("nodeId", .str task.nodeId),
          ("fixedContent", (mdGet md "fixedContent").coalesce (mdGet md "fixed_content")),
          ("bindings", mdGet md "bindings")]
  | .prepare =>
    .obj [("projectId", .str projectId), ("nodeId", .str task.nodeId),
          ("outlineNode", (mdGet md "outlineNode").coalesce (mdGet md "outline_node")),
          ("projectContext",
            ((mdGet md "projectContext").coalesce (mdGet md "project_context")).coalesce (.obj [])),
          ("assetsAvailability",
            (mdGet md "assetsAvailability").coalesce
              (.obj [("embedReady", (mdGet md "embedReady").coalesce (.bool false)),
                     ("tableReady", (mdGet md "tableReady").coalesce (.bool false))]))]
  | .retrieve =>
    let prepareResult := findResult (task.dependencies.headD "")
    .obj [("projectId", .str projectId), ("nodeId", .str task.nodeId),
          ("queries", ((prepareResult.get "queries").coalesce (mdGet md "queries")).coalesce (.arr [])),
          ("limit", (mdGet md "limit").coalesce (.num 5))]
  | .write =>
    let prepareResult := findResult ((task.dependencies.find? (fun id => id.startsWith "prepare")).getD "")
    let retrieveResult := findResult ((task.dependencies.find? (fun id => id.startsWith "retrieve")).getD "")
    .obj [("projectId", .str projectId), ("nodeId", .str task.nodeId),
          ("title",
            (((mdGet md "title").coalesce (mdGet md "outlineTitle")).coalesce (mdGet md "label")).coalesce
              (.str task.nodeId)),
          ("prompt",
            (((prepareResult.get "prompts").get "user_prompt_text").coalesce (mdGet md "prompt")).coalesce
              (.str "")),
          ("contextPack", (retrieveResult.get "contextPack").coalesce (.arr [])),
          ("metrics", mdGet md "metrics"),
          ("writingJournal", mdGet md "writingJournal")]
  | .verify =>
    let writeResult := findResult ((task.dependencies.find? (fun id => id.startsWith "write")).getD "")
    .obj [("projectId", .str projectId), ("nodeId", .str task.nodeId),
          ("draft", (writeResult.get "draft").coalesce (mdGet md "draft")),
          ("metrics", mdGet md "metrics"),
          ("evidenceMap", mdGet md "evidenceMap")]
  | .assemble =>
    let materialized := findResult ((task.dependencies.find? (fun id => id.startsWith "materialize")).getD "")
    let verified := findResult ((task.dependencies.find? (fun id => id.startsWith "verify")).getD "")
    .obj [("projectId", .str projectId), ("nodeId", .str task.nodeId),
          ("fixedBlocks",
            if materialized.truthy then .arr [materialized.get "renderedBlock"] else mdGet md "fixedBlocks"),
          ("draft", (verified.get "draft").coalesce (mdGet md "draft")),
          ("children", .arr (task.dependents.map Val.str))]

/-- TaskDispatcher.enqueueTask: add the job to the kind's queue and mark
the node `running`. -/
def enqueueTask (projectId : String) (s : DState) (task : TaskRecord) : DState :=
  let queue := resolveQueue task.type
  let payload := buildJobPayload s.tasks projectId task
  ⟨updateStatus s.tasks task.nodeId .running noMeta,
   List.append s.jobs [⟨queue, projectId ++ ":" ++ task.nodeId, payload⟩]⟩

/-- TaskDispatcher.enqueueReadyTasks: snapshot the ready list, then
enqueue each task in order. -/
def enqueueReadyTasks (projectId : String) (s : DState) : DState :=
  List.foldl (enqueueTask projectId) s (listReadyTasks s.tasks)

/-- TaskDispatcher.blockDependentsOnFailure: mark the failing node's
direct `dependents` list blocked. -/
def blockDependentsOnFailure (s : DState) (nodeId : String) : DState :=
  match getTask s.tasks nodeId with
  | none => s
  | some record =>
    if record.dependents.length == 0 then s
    else ⟨markBlocked s.tasks record.dependents, s.jobs⟩

/-- TaskDispatcher.handleAutofixFailure. -/
def handleAutofixFailure (ev : WorkerResultEvent) (s : DState) : DState :=
  let s1 : DState :=
    ⟨updateStatus s.tasks ev.nodeId .failed ⟨none, some (some (ev.error.getD "AutoFix failed")), none, none⟩,
     s.jobs⟩
  blockDependentsOnFailure s1 ev.nodeId

/-- TaskDispatcher.handleAutofixSuccess. -/
def handleAutofixSuccess (ev : WorkerResultEvent) (s : DState) : DState :=
  match getTask s.tasks ev.nodeId with
  | none => s
  | some task =>
    let draftVal := (ev.result.get "draft").coalesce (mdGet task.metadata "draft")
    let metadata := mdRemove (mdRemove (mdSet task.metadata "draft" draftVal) "pendingPatches") "violations"
    let s1 : DState :=
      ⟨updateStatus s.tasks ev.nodeId .pending ⟨toUpd (ev.result.get "draft"), none, none, some metadata⟩,
       s.jobs⟩
    match getTask s1.tasks ev.nodeId with
    | none => s1
    | some refreshed => enqueueTask ev.projectId s1 refreshed

/-- TaskDispatcher.handleVerifyResult: the tri-state verify protocol. -/
def handleVerifyResult (ev : WorkerResultEvent) (s : DState) : DState :=
  let verifyResult := ev.result
  if !verifyResult.truthy then
    enqueueReadyTasks ev.projectId ⟨updateStatus s.tasks ev.nodeId .completed noMeta, s.jobs⟩
  else if statusIs verifyResult "accept" then
    enqueueReadyTasks ev.projectId
      ⟨updateStatus s.tasks ev.nodeId .completed ⟨toUpd (verifyResult.get "draft"), none, none, none⟩, s.jobs⟩
  else if statusIs verifyResult "hard_fail" then
    let s1 : DState :=
      ⟨updateStatus s.tasks ev.nodeId .failed
        ⟨toUpd (verifyResult.get "draft"), some (some "Verifier hard fail"), none, none⟩, s.jobs⟩
    blockDependentsOnFailure s1 ev.nodeId
  else if statusIs verifyResult "soft_fail" then
    match getTask s.tasks ev.nodeId with
    | none => s
    | some task =>
      let metadata :=
        mdSet (mdSet (mdSet task.metadata "draft" (verifyResult.get "draft"))
          "pendingPatches" (verifyResult.get "patches")) "violations" (verifyResult.get "violations")
      let tasks1 :=
        updateStatus s.tasks ev.nodeId .blocked ⟨toUpd (verifyResult.get "draft"), none, none, some metadata⟩
      ⟨tasks1,
       List.append s.jobs
        [⟨"autofixer", ev.projectId ++ ":" ++ ev.nodeId ++ ":autofix",
          .obj [("projectId", .str ev.projectId), ("nodeId", .str ev.nodeId),
                ("draft", verifyResult.get "draft"),
                ("patches", (verifyResult.get "patches").coalesce (.arr []))]⟩]⟩
  else s

/-- TaskDispatcher.handleWorkerResult. -/
def handleWorkerResult (ev : WorkerResultEvent) (s : DState) : DState :=
  if ev.type == .autofix then
    if errTruthy ev.error then handleAutofixFailure ev s else handleAutofixSuccess ev s
  else if errTruthy ev.error then
    let s1 : DState := ⟨updateStatus s.tasks ev.nodeId .failed ⟨none, errUpd ev.error, none, none⟩, s.jobs⟩
    blockDependentsOnFailure s1 ev.nodeId
  else if ev.type == EvType.task .verify && (ev.result.get "status").truthy then
    handleVerifyResult ev s
  else
    enqueueReadyTasks ev.projectId
      ⟨updateStatus s.tasks ev.nodeId .completed ⟨toUpd ev.result, none, none, none⟩, s.jobs⟩

/-- TaskDispatcher.handleWorkerProgress. -/
def handleWorkerProgress (ev : WorkerProgressEvent) (s : DState) : DState :=
  if ev.type == .autofix then
    if ev.status == .failed then
      handleAutofixFailure ⟨ev.projectId, ev.nodeId, .autofix, .undef, ev.error⟩ s
    else s
  else if ev.status == .running then
    ⟨updateStatus s.tasks ev.nodeId .running noMeta, s.jobs⟩
  else if ev.status == .failed then
    let s1 : DState := ⟨updateStatus s.tasks ev.nodeId .failed ⟨none, errUpd ev.error, none, none⟩, s.jobs⟩
    blockDependentsOnFailure s1 ev.nodeId
  else s

end TaskDispatcher

/-- An asynchronous event reaching the dispatcher from the queue
substrate. -/
inductive Event where
  | progress (ev : WorkerProgressEvent)
  | result (ev : WorkerResultEvent)

/-- One dispatcher reaction. -/
def stepEvent (s : DState) : Event → DState
  | .progress ev => TaskDispatcher.handleWorkerProgress ev s
  | .result ev => TaskDispatcher.handleWorkerResult ev s

/-- The dispatcher state after a sequence of worker events. -/
def runTrace (s : DState) (evs : List Event) : DState :=
  List.foldl stepEvent s evs


/-! Helper lemmas about the JS-value and metadata embedding. -/

theorem Val.truthy_of_get_truthy (v : Val) (k : String) (h : (v.get k).truthy = true) :
    v.truthy = true := by
  cases v <;> simp [Val.get, Val.truthy] at h ⊢

theorem statusIs_get (v : Val) (name : String) (h : statusIs v name = true) :
    v.get "status" = .str name := by
  unfold statusIs at h
  cases hg : v.get "status" <;> rw [hg] at h <;> simp at h
  rw [h]

theorem statusIs_truthy (v : Val) (name : String) (h : statusIs v name = true)
    (hne : name ≠ "") : (v.get "status").truthy = true := by
  rw [statusIs_get v name h]
  simpa [Val.truthy] using hne

theorem statusIs_ne (v : Val) (a b : String) (h : statusIs v a = true) (hne : a ≠ b) :
    statusIs v b = false := by
  unfold statusIs
  rw [statusIs_get v a h]
  simpa using hne

theorem find?_cons_pos {α : Type} (p : α → Bool) (a : α) (l : List α)
    (h : p a = true) : List.find? p (a :: l) = some a := by
  simp [List.find?, h]

theorem find?_cons_neg {α : Type} (p : α → Bool) (a : α) (l : List α)
    (h : p a = false) : List.find? p (a :: l) = List.find? p l := by
  simp [List.find?, h]

theorem filter_cons_pos {α : Type} (p : α → Bool) (a : α) (l : List α)
    (h : p a = true) : List.filter p (a :: l) = a :: List.filter p l := by
  simp [List.filter, h]

theorem filter_cons_neg {α : Type} (p : α → Bool) (a : α) (l : List α)
    (h : p a = false) : List.filter p (a :: l) = List.filter p l := by
  simp [List.filter, h]

theorem find?_mdSetMap (m : Metadata) (k k2 : String) (v : Val) (h : k2 ≠ k) :
    List.find? (fun p => p.1 == k2) (List.map (fun p => if p.1 == k then (k, v) else p) m)
      = List.find? (fun p => p.1 == k2) m := by
  induction m with
  | nil => rfl
  | cons q rest ih =>
    by_cases hq : (q.1 == k) = true
    · have hq1 : q.1 = k := by simpa using hq
      have h1 : ¬ (((k, v) : String × Val).1 == k2) = true := by simpa using fun hh => h hh.symm
      have h2 : ¬ (q.1 == k2) = true := by rw [hq1]; simpa using fun hh => h hh.symm
      simp only [List.map_cons, if_pos hq]
      rw [find?_cons_neg (fun (p : String × Val) => p.1 == k2) _ _ (by simpa using h1),
        find?_cons_neg (fun (p : String × Val) => p.1 == k2) _ _ (by simpa using h2), ih]
    · simp only [List.map_cons, if_neg hq]
      by_cases h2 : (q.1 == k2) = true
      · rw [find?_cons_pos (fun (p : String × Val) => p.1 == k2) _ _ h2,
          find?_cons_pos (fun (p : String × Val) => p.1 == k2) _ _ h2]
      · rw [find?_cons_neg (fun (p : String × Val) => p.1 == k2) _ _ (by simpa using h2),
          find?_cons_neg (fun (p : String × Val) => p.1 == k2) _ _ (by simpa using h2), ih]

theorem find?_mdSetMap_self (m : Metadata) (k : String) (v : Val)
    (h : List.any m (fun p => p.1 == k) = true) :
    List.find? (fun p => p.1 == k) (List.map (fun p => if p.1 == k then (k, v) else p) m)
      = some (k, v) := by
  induction m with
  | nil => simp at h
  | cons q rest ih =>
    by_cases hq : (q.1 == k) = true
    · simp only [List.map_cons, if_pos hq]
      rw [find?_cons_pos (fun (p : String × Val) => p.1 == k) _ _ (by simp)]
    · simp only [List.any_cons, hq, Bool.false_or] at h
      simp only [List.map_cons, if_neg hq]
      rw [find?_cons_neg (fun (p : String × Val) => p.1 == k) _ _ (by simpa using hq), ih h]

theorem mdGet_mdSet_self (m : Metadata) (k : String) (v : Val) :
    mdGet (mdSet m k v) k = v := by
  unfold mdSet mdGet
  by_cases h : List.any m (fun p => p.1 == k) = true
  · rw [if_pos h, find?_mdSetMap_self m k v h]
    rfl
  · rw [if_neg h]
    simp only [List.append_eq, List.find?_append]
    have hnone : List.find? (fun p => p.1 == k) m = none := by
      rw [List.find?_eq_none]
      intro p hp hk
      exact h (List.any_eq_true.mpr ⟨p, hp, hk⟩)
    rw [hnone]
    simp [List.find?]

theorem mdGet_mdSet_ne (m : Metadata) (k k2 : String) (v : Val) (h : k2 ≠ k) :
    mdGet (mdSet m k v) k2 = mdGet m k2 := by
  unfold mdSet mdGet
  by_cases hany : List.any m (fun p => p.1 == k) = true
  · rw [if_pos hany, find?_mdSetMap m k k2 v h]
  · rw [if_neg hany]
    simp only [List.append_eq, List.find?_append]
    have h1 : List.find? (fun p => p.1 == k2) [(k, v)] = none := by
      rw [List.find?_eq_none]
      intro p hp hk
      rw [List.mem_singleton] at hp
      subst hp
      exact h ((by simpa using hk : k = k2)).symm
    rw [h1]
    cases List.find? (fun p => p.1 == k2) m <;> rfl

theorem mdGet_mdRemove_self (m : Metadata) (k : String) :
    mdGet (mdRemove m k) k = Val.undef := by
  unfold mdRemove mdGet
  have hnone : List.find? (fun p => p.1 == k) (List.filter (fun p => p.1 != k) m) = none := by
    rw [List.find?_eq_none]
    intro p hp hk
    have := (List.mem_filter.mp hp).2
    simp only [bne_iff_ne, ne_eq] at this
    exact this (by simpa using hk)
  rw [hnone]
  rfl

theorem mdGet_mdRemove_ne (m : Metadata) (k k2 : String) (h : k2 ≠ k) :
    mdGet (mdRemove m k) k2 = mdGet m k2 := by
  unfold mdRemove mdGet
  congr 1
  induction m with
  | nil => rfl
  | cons q rest ih =>
    by_cases hq : (q.1 != k) = true
    · rw [filter_cons_pos (fun (p : String × Val) => p.1 != k) _ _ hq]
      by_cases h2 : (q.1 == k2) = true
      · rw [find?_cons_pos (fun (p : String × Val) => p.1 == k2) _ _ h2,
          find?_cons_pos (fun (p : String × Val) => p.1 == k2) _ _ h2]
      · rw [find?_cons_neg (fun (p : String × Val) => p.1 == k2) _ _ (by simpa using h2),
          find?_cons_neg (fun (p : String × Val) => p.1 == k2) _ _ (by simpa using h2), ih]
    · have hq1 : q.1 = k := by simpa using hq
      have h2 : ¬ (q.1 == k2) = true := by rw [hq1]; simpa using fun hh => h hh.symm
      rw [filter_cons_neg (fun (p : String × Val) => p.1 != k) _ _ (by simpa using hq),
        find?_cons_neg (fun (p : String × Val) => p.1 == k2) _ _ (by simpa using h2), ih]

/-! Helper lemmas about the task-state store. -/

namespace TaskStateStore

theorem applyMeta_nodeId (r : TaskRecord) (m : UpdateMeta) : (applyMeta r m).nodeId = r.nodeId := by
  obtain ⟨mr, me, mt, mm⟩ := m
  unfold applyMeta
  cases mr <;> cases me <;> cases mt <;> cases mm <;> rfl

theorem applyMeta_status (r : TaskRecord) (m : UpdateMeta) : (applyMeta r m).status = r.status := by
  obtain ⟨mr, me, mt, mm⟩ := m
  unfold applyMeta
  cases mr <;> cases me <;> cases mt <;> cases mm <;> rfl

theorem applyMeta_type (r : TaskRecord) (m : UpdateMeta) : (applyMeta r m).type = r.type := by
  obtain ⟨mr, me, mt, mm⟩ := m
  unfold applyMeta
  cases mr <;> cases me <;> cases mt <;> cases mm <;> rfl

theorem applyMeta_dependencies (r : TaskRecord) (m : UpdateMeta) :
    (applyMeta r m).dependencies = r.dependencies := by
  obtain ⟨mr, me, mt, mm⟩ := m
  unfold applyMeta
  cases mr <;> cases me <;> cases mt <;> cases mm <;> rfl

theorem applyMeta_dependents (r : TaskRecord) (m : UpdateMeta) :
    (applyMeta r m).dependents = r.dependents := by
  obtain ⟨mr, me, mt, mm⟩ := m
  unfold applyMeta
  cases mr <;> cases me <;> cases mt <;> cases mm <;> rfl

theorem applyMeta_noMeta (r : TaskRecord) : applyMeta r noMeta = r := rfl

theorem applyMeta_metadata_some (r : TaskRecord) (m : UpdateMeta) (md : Metadata)
    (h : m.metadata = some md) : (applyMeta r m).metadata = md := by
  obtain ⟨mr, me, mt, mm⟩ := m
  simp only at h
  subst h
  unfold applyMeta
  cases mr <;> cases me <;> cases mt <;> rfl

theorem applyMeta_result_some (r : TaskRecord) (m : UpdateMeta) (v : Val)
    (h : m.result = some v) : (applyMeta r m).result = v := by
  obtain ⟨mr, me, mt, mm⟩ := m
  simp only at h
  subst h
  unfold applyMeta
  cases me <;> cases mt <;> cases mm <;> rfl

theorem applyMeta_result_none (r : TaskRecord) (m : UpdateMeta)
    (h : m.result = none) : (applyMeta r m).result = r.result := by
  obtain ⟨mr, me, mt, mm⟩ := m
  simp only at h
  subst h
  unfold applyMeta
  cases me <;> cases mt <;> cases mm <;> rfl

theorem mem_updateStatus {rec : TaskRecord} {t : List TaskRecord} {n : String}
    {st : TaskStatus} {meta : UpdateMeta} :
    rec ∈ updateStatus t n st meta ↔
      ∃ r ∈ t, rec = if r.nodeId == n then applyMeta { r with status := st } meta else r := by
  unfold updateStatus
  rw [List.mem_map]
  constructor
  · rintro ⟨r, hr, hrec⟩
    exact ⟨r, hr, hrec.symm⟩
  · rintro ⟨r, hr, hrec⟩
    exact ⟨r, hr, hrec.symm⟩

theorem updateStatus_status_of_mem {rec : TaskRecord} {t : List TaskRecord} {n : String}
    {st : TaskStatus} {meta : UpdateMeta}
    (hmem : rec ∈ updateStatus t n st meta) (hid : rec.nodeId = n) : rec.status = st := by
  obtain ⟨r, _hr, hrec⟩ := mem_updateStatus.mp hmem
  by_cases hcase : (r.nodeId == n) = true
  · rw [if_pos hcase] at hrec
    rw [hrec, applyMeta_status]
  · rw [if_neg hcase] at hrec
    subst hrec
    exact absurd (by simpa using hid) hcase

theorem updateStatus_other_of_mem {rec : TaskRecord} {t : List TaskRecord} {n : String}
    {st : TaskStatus} {meta : UpdateMeta}
    (hmem : rec ∈ updateStatus t n st meta) (hid : rec.nodeId ≠ n) : rec ∈ t := by
  obtain ⟨r, hr, hrec⟩ := mem_updateStatus.mp hmem
  by_cases hcase : (r.nodeId == n) = true
  · rw [if_pos hcase] at hrec
    exfalso
    apply hid
    rw [hrec, applyMeta_nodeId]
    simpa using hcase
  · rw [if_neg hcase] at hrec
    subst hrec
    exact hr

theorem getTask_updateStatus (t : List TaskRecord) (n : String) (st : TaskStatus)
    (meta : UpdateMeta) (k : String) :
    getTask (updateStatus t n st meta) k =
      (getTask t k).map (fun r => if r.nodeId == n then applyMeta { r with status := st } meta else r) := by
  unfold getTask updateStatus
  induction t with
  | nil => rfl
  | cons r rest ih =>
    have hpres : (if r.nodeId == n then applyMeta { r with status := st } meta else r).nodeId
        = r.nodeId := by
      by_cases hcase : (r.nodeId == n) = true
      · rw [if_pos hcase, applyMeta_nodeId]
      · rw [if_neg hcase]
    by_cases hk : (r.nodeId == k) = true
    · rw [List.map_cons,
        find?_cons_pos (fun (x : TaskRecord) => x.nodeId == k) _ _ (by simp only [hpres]; exact hk),
        find?_cons_pos (fun (x : TaskRecord) => x.nodeId == k) _ _ hk]
      rfl
    · rw [List.map_cons,
        find?_cons_neg (fun (x : TaskRecord) => x.nodeId == k) _ _
          (by simp only [hpres]; exact (Bool.not_eq_true _).mp hk),
        find?_cons_neg (fun (x : TaskRecord) => x.nodeId == k) _ _ ((Bool.not_eq_true _).mp hk)]
      exact ih

theorem getTask_nodeId {t : List TaskRecord} {k : String} {r : TaskRecord}
    (h : getTask t k = some r) : r.nodeId = k := by
  unfold getTask at h
  have := List.find?_some h
  simpa using this

theorem getTask_mem {t : List TaskRecord} {k : String} {r : TaskRecord}
    (h : getTask t k = some r) : r ∈ t := List.mem_of_find?_eq_some h

theorem mem_markBlocked {rec : TaskRecord} {t : List TaskRecord} {ids : List String} :
    rec ∈ markBlocked t ids ↔
      ∃ r ∈ t, rec = if ids.contains r.nodeId then { r with status := TaskStatus.blocked } else r := by
  unfold markBlocked
  rw [List.mem_map]
  constructor
  · rintro ⟨r, hr, hrec⟩
    exact ⟨r, hr, hrec.symm⟩
  · rintro ⟨r, hr, hrec⟩
    exact ⟨r, hr, hrec.symm⟩

theorem markBlocked_status_of_mem {rec : TaskRecord} {t : List TaskRecord} {ids : List String}
    (hmem : rec ∈ markBlocked t ids) (hid : rec.nodeId ∈ ids) : rec.status = .blocked := by
  obtain ⟨r, _hr, hrec⟩ := mem_markBlocked.mp hmem
  by_cases hcase : (ids.contains r.nodeId) = true
  · rw [if_pos hcase] at hrec
    rw [hrec]
  · rw [if_neg hcase] at hrec
    subst hrec
    exact absurd (by simpa using hid) hcase

theorem listReadyTasks_source {row : TaskRecord} {t : List TaskRecord}
    (h : row ∈ listReadyTasks t) :
    ∃ rec ∈ t, row = stripRow rec ∧ rec.nodeId = row.nodeId ∧ rec.status = .pending ∧
      sqlReady t rec = true := by
  unfold listReadyTasks at h
  rw [List.mem_map] at h
  obtain ⟨rec, hmem, hrow⟩ := h
  rw [List.mem_filter] at hmem
  refine ⟨rec, hmem.1, hrow.symm, ?_, ?_, hmem.2⟩
  · rw [← hrow]; rfl
  · have := hmem.2
    unfold sqlReady at this
    exact by simpa using (Bool.and_eq_true _ _ |>.mp this).1

end TaskStateStore

/-! Dispatcher branch-selection lemmas. -/

theorem handleWorkerResult_eq_handleVerifyResult (ev : WorkerResultEvent) (s : DState)
    (htype : ev.type = .task .verify)
    (herr : errTruthy ev.error = false)
    (hst : (ev.result.get "status").truthy = true) :
    TaskDispatcher.handleWorkerResult ev s = TaskDispatcher.handleVerifyResult ev s := by
  unfold TaskDispatcher.handleWorkerResult
  rw [htype, herr, hst]
  simp

theorem handleWorkerResult_eq_handleAutofixSuccess (ev : WorkerResultEvent) (s : DState)
    (htype : ev.type = .autofix)
    (herr : errTruthy ev.error = false) :
    TaskDispatcher.handleWorkerResult ev s = TaskDispatcher.handleAutofixSuccess ev s := by
  unfold TaskDispatcher.handleWorkerResult
  rw [htype, herr]
  simp

/-- Claim C10: for a verify-kind worker result event without an error whose
result carries a truthy status that is none of accept, hard_fail or
soft_fail, handleWorkerResult changes nothing: no task row's status,
metadata or result is updated and no job is enqueued, so the verify task
stays in its prior status indefinitely. -/
theorem claim_C10_unknown_verify_status_is_frame (ev : WorkerResultEvent) (s : DState)
    (htype : ev.type = .task .verify)
    (herr : errTruthy ev.error = false)
    (hst : (ev.result.get "status").truthy = true)
    (ha : statusIs ev.result "accept" = false)
    (hh : statusIs ev.result "hard_fail" = false)
    (hs : statusIs ev.result "soft_fail" = false) :
    TaskDispatcher.handleWorkerResult ev s = s := by
  rw [handleWorkerResult_eq_handleVerifyResult ev s htype herr hst]
  have hvr : ev.result.truthy = true := Val.truthy_of_get_truthy ev.result "status" hst
  unfold TaskDispatcher.handleVerifyResult
  simp [hvr, ha, hh, hs]

/-- Concrete instantiation of C10: a verify result with unknown status
"needs_review" leaves a one-task store untouched. -/
def c10Event : WorkerResultEvent :=
  ⟨"p1", "verify:1", .task .verify, .obj [("status", .str "needs_review"), ("draft", .str "text")], none⟩

def c10Record : TaskRecord :=
  ⟨"verify:1", .verify, .running, ["write:1"], ["assemble:1"], [], .undef, none, 0⟩

def c10State : DState := ⟨[c10Record], []⟩

theorem claim_C10_witness :
    TaskDispatcher.handleWorkerResult c10Event c10State = c10State :=
  claim_C10_unknown_verify_status_is_frame c10Event c10State rfl rfl rfl rfl rfl rfl

/-- Claim C3: for a verify-kind worker result event without an error whose
result has status soft_fail (and whose node exists in the store),
handleWorkerResult sets the verify node's own status to blocked (not
failed), stores the draft, the proposed patches (under the key
pendingPatches) and the violation list into that task's metadata, and
enqueues exactly one autofix job carrying the draft and the patches. -/
theorem claim_C3_soft_fail_blocks_and_enqueues_autofix (ev : WorkerResultEvent) (s : DState)
    (task : TaskRecord)
    (htype : ev.type = .task .verify)
    (herr : errTruthy ev.error = false)
    (hsoft : statusIs ev.result "soft_fail" = true)
    (htask : TaskStateStore.getTask s.tasks ev.nodeId = some task) :
    let d := ev.result.get "draft"
    let p := ev.result.get "patches"
    let vi := ev.result.get "violations"
    let md := mdSet (mdSet (mdSet task.metadata "draft" d) "pendingPatches" p) "violations" vi
    let post := TaskDispatcher.handleWorkerResult ev s
    post.tasks = TaskStateStore.updateStatus s.tasks ev.nodeId .blocked ⟨toUpd d, none, none, some md⟩ ∧
    post.jobs = s.jobs ++
      [⟨"autofixer", ev.projectId ++ ":" ++ ev.nodeId ++ ":autofix",
        .obj [("projectId", .str ev.projectId), ("nodeId", .str ev.nodeId),
              ("draft", d), ("patches", p.coalesce (.arr []))]⟩] ∧
    ∀ rec ∈ post.tasks, rec.nodeId = ev.nodeId →
      rec.status = .blocked ∧ mdGet rec.metadata "draft" = d ∧
      mdGet rec.metadata "pendingPatches" = p ∧ mdGet rec.metadata "violations" = vi := by
  intro d p vi md post
  have hst : (ev.result.get "status").truthy = true := statusIs_truthy _ _ hsoft (by decide)
  have hvr : ev.result.truthy = true := Val.truthy_of_get_truthy ev.result "status" hst
  have ha : statusIs ev.result "accept" = false := statusIs_ne _ _ _ hsoft (by decide)
  have hh : statusIs ev.result "hard_fail" = false := statusIs_ne _ _ _ hsoft (by decide)
  have hpost : post = ⟨TaskStateStore.updateStatus s.tasks ev.nodeId .blocked ⟨toUpd d, none, none, some md⟩,
      s.jobs ++
        [⟨"autofixer", ev.projectId ++ ":" ++ ev.nodeId ++ ":autofix",
          .obj [("projectId", .str ev.projectId), ("nodeId", .str ev.nodeId),
                ("draft", d), ("patches", p.coalesce (.arr []))]⟩]⟩ := by
    show TaskDispatcher.handleWorkerResult ev s = _
    rw [handleWorkerResult_eq_handleVerifyResult ev s htype herr hst]
    unfold TaskDispatcher.handleVerifyResult
    simp only [hvr, ha, hh, hsoft, htask, Bool.not_true, if_false, Bool.false_eq_true,
      if_true]
    rfl
  refine ⟨by rw [hpost], by rw [hpost], ?_⟩
  intro rec hrec hid
  rw [hpost] at hrec
  have hstat := TaskStateStore.updateStatus_status_of_mem hrec hid
  obtain ⟨r, _hr, hform⟩ := TaskStateStore.mem_updateStatus.mp hrec
  by_cases hcase : (r.nodeId == ev.nodeId) = true
  · rw [if_pos hcase] at hform
    have hmd : rec.metadata = md := by
      rw [hform]
      exact TaskStateStore.applyMeta_metadata_some _ _ _ rfl
    refine ⟨hstat, ?_, ?_, ?_⟩
    · rw [hmd]
      show mdGet (mdSet (mdSet (mdSet task.metadata "draft" d) "pendingPatches" p) "violations" vi) "draft" = d
      rw [mdGet_mdSet_ne _ _ _ _ (by decide), mdGet_mdSet_ne _ _ _ _ (by decide),
        mdGet_mdSet_self]
    · rw [hmd]
      show mdGet (mdSet (mdSet (mdSet task.metadata "draft" d) "pendingPatches" p) "violations" vi) "pendingPatches" = p
      rw [mdGet_mdSet_ne _ _ _ _ (by decide), mdGet_mdSet_self]
    · rw [hmd]
      show mdGet (mdSet (mdSet (mdSet task.metadata "draft" d) "pendingPatches" p) "violations" vi) "violations" = vi
      rw [mdGet_mdSet_self]
  · rw [if_neg hcase] at hform
    subst hform
    exact absurd (by simpa using hid) hcase

/-- Concrete instantiation of C3: a soft_fail verify result on a running
verify task blocks it, stashes draft/patches/violations, and enqueues one
autofix job. -/
def c3Event : WorkerResultEvent :=
  ⟨"p1", "verify:1", .task .verify,
   .obj [("status", .str "soft_fail"), ("draft", .str "D"),
         ("patches", .arr [.str "patch1"]), ("violations", .arr [.str "v1"])], none⟩

def c3State : DState := ⟨[c10Record], []⟩

theorem claim_C3_witness :
    (TaskDispatcher.handleWorkerResult c3Event c3State).jobs =
      [⟨"autofixer", "p1:verify:1:autofix",
        .obj [("projectId", .str "p1"), ("nodeId", .str "verify:1"),
              ("draft", .str "D"), ("patches", .arr [.str "patch1"])]⟩] := by
  have h := claim_C3_soft_fail_blocks_and_enqueues_autofix c3Event c3State c10Record rfl rfl rfl rfl
  exact h.2.1

/-- Claim C4: for an autofix result event without an error whose node id
names an existing task, handleAutofixSuccess merges the patched draft into
that task's metadata, removes the stashed pendingPatches and violations
keys, resets the task's status to pending (not completed), and re-enqueues
that same task (which, as for any enqueue, then marks it running). -/
theorem claim_C4_autofix_success_resets_and_requeues (ev : WorkerResultEvent) (s : DState)
    (task : TaskRecord)
    (htype : ev.type = .autofix)
    (herr : errTruthy ev.error = false)
    (htask : TaskStateStore.getTask s.tasks ev.nodeId = some task) :
    let d0 := ev.result.get "draft"
    let d := d0.coalesce (mdGet task.metadata "draft")
    let md := mdRemove (mdRemove (mdSet task.metadata "draft" d) "pendingPatches") "violations"
    let mu := (⟨toUpd d0, none, none, some md⟩ : TaskStateStore.UpdateMeta)
    let mid := (⟨TaskStateStore.updateStatus s.tasks ev.nodeId .pending mu, s.jobs⟩ : DState)
    let refreshed := TaskStateStore.applyMeta { task with status := .pending } mu
    let post := TaskDispatcher.handleWorkerResult ev s
    post = TaskDispatcher.enqueueTask ev.projectId mid refreshed ∧
    (∀ rec ∈ mid.tasks, rec.nodeId = ev.nodeId →
      rec.status = .pending ∧ mdGet rec.metadata "draft" = d ∧
      mdGet rec.metadata "pendingPatches" = Val.undef ∧ mdGet rec.metadata "violations" = Val.undef) ∧
    post.jobs = s.jobs ++
      [⟨TaskDispatcher.resolveQueue task.type, ev.projectId ++ ":" ++ ev.nodeId,
        TaskDispatcher.buildJobPayload mid.tasks ev.projectId refreshed⟩] ∧
    (∀ rec ∈ post.tasks, rec.nodeId = ev.nodeId → rec.status = .running) := by
  intro d0 d md mu mid refreshed post
  have hnid : task.nodeId = ev.nodeId := TaskStateStore.getTask_nodeId htask
  have hgetmid : TaskStateStore.getTask mid.tasks ev.nodeId = some refreshed := by
    show TaskStateStore.getTask (TaskStateStore.updateStatus s.tasks ev.nodeId .pending mu) ev.nodeId = _
    rw [TaskStateStore.getTask_updateStatus, htask]
    simp only [Option.map_some']
    rw [if_pos (by simpa using hnid)]
  have hpost : post = TaskDispatcher.enqueueTask ev.projectId mid refreshed := by
    show TaskDispatcher.handleWorkerResult ev s = _
    rw [handleWorkerResult_eq_handleAutofixSuccess ev s htype herr]
    unfold TaskDispatcher.handleAutofixSuccess
    rw [htask]
    dsimp only
    rw [TaskStateStore.getTask_updateStatus, htask]
    simp only [Option.map_some']
    rw [if_pos (show (task.nodeId == ev.nodeId) = true by simpa using hnid)]
  have hrefr_type : refreshed.type = task.type := TaskStateStore.applyMeta_type _ _
  have hrefr_nid : refreshed.nodeId = ev.nodeId := by
    rw [TaskStateStore.applyMeta_nodeId]
    exact hnid
  refine ⟨hpost, ?_, ?_, ?_⟩
  · intro rec hrec hid
    have hstat := TaskStateStore.updateStatus_status_of_mem hrec hid
    obtain ⟨r, _hr, hform⟩ := TaskStateStore.mem_updateStatus.mp hrec
    by_cases hcase : (r.nodeId == ev.nodeId) = true
    · rw [if_pos hcase] at hform
      have hmd : rec.metadata = md := by
        rw [hform]
        exact TaskStateStore.applyMeta_metadata_some _ _ _ rfl
      refine ⟨hstat, ?_, ?_, ?_⟩
      · rw [hmd]
        show mdGet (mdRemove (mdRemove (mdSet task.metadata "draft" d) "pendingPatches") "violations") "draft" = d
        rw [mdGet_mdRemove_ne _ _ _ (by decide), mdGet_mdRemove_ne _ _ _ (by decide),
          mdGet_mdSet_self]
      · rw [hmd]
        show mdGet (mdRemove (mdRemove (mdSet task.metadata "draft" d) "pendingPatches") "violations") "pendingPatches" = Val.undef
        rw [mdGet_mdRemove_ne _ _ _ (by decide), mdGet_mdRemove_self]
      · rw [hmd]
        show mdGet (mdRemove (mdRemove (mdSet task.metadata "draft" d) "pendingPatches") "violations") "violations" = Val.undef
        rw [mdGet_mdRemove_self]
    · rw [if_neg hcase] at hform
      subst hform
      exact absurd (by simpa using hid) hcase
  · rw [hpost]
    show mid.jobs ++ _ = _
    rw [hrefr_type, hrefr_nid]
  · intro rec hrec hid
    rw [hpost] at hrec
    exact TaskStateStore.updateStatus_status_of_mem hrec (hid.trans hrefr_nid.symm)

/-- Concrete instantiation of C4: an autofix success on a blocked verify
task resets it to pending, cleans its metadata, and re-enqueues it on the
verifier queue (marking it running). -/
def c4Record : TaskRecord :=
  ⟨"verify:1", .verify, .blocked, ["write:1"], ["assemble:1"],
   [("draft", .str "old"), ("pendingPatches", .arr [.str "p"]), ("violations", .arr [.str "v"])],
   .str "old", none, 0⟩

def c4State : DState := ⟨[c4Record], []⟩

def c4Event : WorkerResultEvent := ⟨"p1", "verify:1", .autofix, .obj [("draft", .str "new")], none⟩

theorem claim_C4_witness :
    (TaskDispatcher.handleWorkerResult c4Event c4State).jobs.map (fun j => (j.queue, j.name)) =
      [("verifier", "p1:verify:1")] := by
  have h := claim_C4_autofix_success_resets_and_requeues c4Event c4State c4Record rfl rfl rfl
  rw [h.2.2.1]
  rfl

/-- Claim C2: for stores whose rows have pairwise-distinct node ids (the
table's primary key) and whose dependency ids all resolve to persisted
rows, listReadyTasks returns exactly the rows that are pending with every
dependency completed — the spec-worded readiness predicate — in the row
shape of the stored procedure (which omits the result/error columns). -/
theorem claim_C2_listReadyTasks_matches_spec (tasks : List TaskRecord)
    (hnd : (tasks.map (fun r => r.nodeId)).Nodup)
    (hclosed : ∀ r ∈ tasks, ∀ dep ∈ r.dependencies, ∃ d ∈ tasks, d.nodeId = dep) :
    TaskStateStore.listReadyTasks tasks =
      List.map TaskStateStore.stripRow (List.filter (specReadyTask tasks) tasks) := by
  unfold TaskStateStore.listReadyTasks
  congr 1
  apply List.filter_congr
  intro r hr
  have hinj : ∀ x ∈ tasks, ∀ y ∈ tasks, x.nodeId = y.nodeId → x = y := by
    intro x hx y hy hxy
    exact List.inj_on_of_nodup_map hnd hx hy hxy
  unfold TaskStateStore.sqlReady specReadyTask
  by_cases hp : (r.status == TaskStatus.pending) = true
  · rw [hp]
    simp only [Bool.true_and]
    rw [Bool.eq_iff_iff, Bool.not_eq_true']
    constructor
    · intro hnoany
      rw [List.any_eq_false] at hnoany
      rw [List.all_eq_true]
      intro dep hdep
      obtain ⟨dd, hdd, hddid⟩ := hclosed r hr dep hdep
      rw [List.any_eq_true]
      refine ⟨dd, hdd, ?_⟩
      have hnot := hnoany dep hdep
      rw [Bool.not_eq_true, List.any_eq_false] at hnot
      have := hnot dd hdd
      simp only [Bool.and_eq_true, bne_iff_ne, ne_eq, not_and, beq_iff_eq] at this
      have hcompl : dd.status = .completed := by
        by_contra hne
        exact (this hddid) hne
      simp only [Bool.and_eq_true, beq_iff_eq]
      exact ⟨hddid, hcompl⟩
    · intro hall
      rw [List.all_eq_true] at hall
      rw [List.any_eq_false]
      intro dep hdep
      rw [Bool.not_eq_true, List.any_eq_false]
      intro dd hdd
      have := hall dep hdep
      rw [List.any_eq_true] at this
      obtain ⟨d1, hd1, hd1p⟩ := this
      simp only [Bool.and_eq_true, beq_iff_eq] at hd1p
      simp only [Bool.and_eq_true, bne_iff_ne, ne_eq, beq_iff_eq, not_and]
      intro hddid
      have : dd = d1 := hinj dd hdd d1 hd1 (by rw [hddid, hd1p.1])
      rw [this, hd1p.2]
      simp
  · rw [Bool.not_eq_true] at hp
    rw [hp]
    simp

/-- Concrete instantiation of C2: a five-row store with mixed statuses. -/
def c2Tasks : List TaskRecord :=
  [⟨"prepare:1", .prepare, .completed, [], ["write:1"], [], .undef, none, 0⟩,
   ⟨"write:1", .write, .pending, ["prepare:1"], ["verify:1"], [], .undef, none, 0⟩,
   ⟨"verify:1", .verify, .pending, ["write:1"], ["assemble:1"], [], .undef, none, 0⟩,
   ⟨"prepare:2", .prepare, .failed, [], ["write:2"], [], .undef, none, 0⟩,
   ⟨"write:2", .write, .pending, ["prepare:2"], [], [], .undef, none, 0⟩]

theorem claim_C2_witness :
    TaskStateStore.listReadyTasks c2Tasks =
      List.map TaskStateStore.stripRow (List.filter (specReadyTask c2Tasks) c2Tasks) :=
  claim_C2_listReadyTasks_matches_spec c2Tasks (by decide)
    (by
      intro r hr dep hdep
      fin_cases hr <;> simp_all <;> decide)

/-! Machinery for the ready-queue idempotence claim. -/

/-- Proof-side abbreviation: the status change performed by `enqueueTask`. -/
def setRunning (r : TaskRecord) : TaskRecord := { r with status := TaskStatus.running }

theorem foldl_enqueueTask_tasks (pid : String) (s : DState) (L : List TaskRecord) :
    (List.foldl (TaskDispatcher.enqueueTask pid) s L).tasks =
      List.foldl (fun t (r : TaskRecord) =>
        TaskStateStore.updateStatus t r.nodeId .running TaskStateStore.noMeta) s.tasks L := by
  induction L generalizing s with
  | nil => rfl
  | cons x xs ih => exact ih (TaskDispatcher.enqueueTask pid s x)

theorem updateStatus_running_eq_map (t : List TaskRecord) (n : String) :
    TaskStateStore.updateStatus t n .running TaskStateStore.noMeta =
      t.map (fun r => if r.nodeId == n then setRunning r else r) := rfl

theorem setRunning_nodeId (r : TaskRecord) : (setRunning r).nodeId = r.nodeId := rfl

theorem foldl_setRunning_eq_map (L : List TaskRecord) (t : List TaskRecord) :
    List.foldl (fun t (r : TaskRecord) =>
        TaskStateStore.updateStatus t r.nodeId .running TaskStateStore.noMeta) t L =
      t.map (fun x => if L.any (fun r => r.nodeId == x.nodeId) then setRunning x else x) := by
  induction L generalizing t with
  | nil =>
    simp only [List.foldl_nil, List.any_nil]
    exact (List.map_id' ..).symm
  | cons r rs ih =>
    rw [List.foldl_cons, ih, updateStatus_running_eq_map, List.map_map]
    apply List.map_congr_left
    intro x _hx
    simp only [Function.comp]
    by_cases hx : (x.nodeId == r.nodeId) = true
    · have hx2 : (r.nodeId == x.nodeId) = true := by
        simpa using (by simpa using hx : x.nodeId = r.nodeId).symm
      rw [if_pos hx, List.any_cons, hx2]
      simp only [Bool.true_or, if_true]
      by_cases hmem : (rs.any (fun q => q.nodeId == (setRunning x).nodeId)) = true
      · rw [if_pos hmem]
        rfl
      · rw [if_neg hmem]
    · have hx2 : (r.nodeId == x.nodeId) = false := by
        rw [beq_eq_false_iff_ne]
        intro hh
        exact hx (by simpa using hh.symm)
      rw [if_neg hx, List.any_cons, hx2]
      simp only [Bool.false_or]

theorem enqueueReadyTasks_tasks (pid : String) (s : DState) :
    (TaskDispatcher.enqueueReadyTasks pid s).tasks =
      s.tasks.map (fun x =>
        if (TaskStateStore.listReadyTasks s.tasks).any (fun r => r.nodeId == x.nodeId)
        then setRunning x else x) := by
  unfold TaskDispatcher.enqueueReadyTasks
  rw [foldl_enqueueTask_tasks, foldl_setRunning_eq_map]

theorem listReadyTasks_after_enqueue (pid : String) (s : DState) :
    TaskStateStore.listReadyTasks ((TaskDispatcher.enqueueReadyTasks pid s).tasks) = [] := by
  rw [enqueueReadyTasks_tasks]
  set t := s.tasks with ht
  set R := TaskStateStore.listReadyTasks t with hR
  set F := fun x =>
    if R.any (fun r => r.nodeId == x.nodeId) then setRunning x else x with hF
  unfold TaskStateStore.listReadyTasks
  rw [List.filter_eq_nil_iff.mpr, List.map_nil]
  intro x2 hx2
  rw [List.mem_map] at hx2
  obtain ⟨x, hx, hFx⟩ := hx2
  by_cases hany : (R.any (fun r => r.nodeId == x.nodeId)) = true
  · have : x2 = setRunning x := by rw [← hFx, hF]; simp only [hany, if_true]
    subst this
    intro habs
    unfold TaskStateStore.sqlReady at habs
    have := (Bool.and_eq_true _ _ |>.mp habs).1
    simp [setRunning] at this
  · have hFxx : x2 = x := by rw [← hFx, hF]; simp [hany]
    subst hFxx
    intro habs
    -- from readiness in the updated table, derive readiness in the original table
    unfold TaskStateStore.sqlReady at habs
    obtain ⟨hpend, hdeps⟩ := Bool.and_eq_true _ _ |>.mp habs
    have hready : TaskStateStore.sqlReady t x2 = true := by
      unfold TaskStateStore.sqlReady
      rw [Bool.and_eq_true]
      refine ⟨hpend, ?_⟩
      rw [Bool.not_eq_true', List.any_eq_false]
      intro dep hdep
      rw [Bool.not_eq_true, List.any_eq_false]
      intro d hd
      rw [Bool.not_eq_true', List.any_eq_false] at hdeps
      have hdeps1 := hdeps dep hdep
      rw [Bool.not_eq_true, List.any_eq_false] at hdeps1
      have hFd := hdeps1 (F d) (List.mem_map_of_mem F hd)
      simp only [Bool.and_eq_true, bne_iff_ne, ne_eq, not_and, beq_iff_eq] at hFd ⊢
      intro hdid hdst
      have hFdid : (F d).nodeId = d.nodeId := by
        rw [hF]
        by_cases hc : (R.any (fun r => r.nodeId == d.nodeId)) = true
        · simp only [hc, if_true]; rfl
        · simp [hc]
      by_cases hc : (R.any (fun r => r.nodeId == d.nodeId)) = true
      · have : F d = setRunning d := by rw [hF]; simp only [hc, if_true]
        exact hFd (by rw [hFdid]; exact hdid) (by rw [this]; simp [setRunning])
      · have : F d = d := by rw [hF]; simp [hc]
        exact hFd (by rw [hFdid]; exact hdid) (by rw [this]; exact hdst)
    have hxready : TaskStateStore.stripRow x2 ∈ R := by
      rw [hR]
      unfold TaskStateStore.listReadyTasks
      exact List.mem_map_of_mem _ (List.mem_filter.mpr ⟨hx, hready⟩)
    have : (R.any (fun r => r.nodeId == x2.nodeId)) = true := by
      rw [List.any_eq_true]
      exact ⟨TaskStateStore.stripRow x2, hxready, by simp [TaskStateStore.stripRow]⟩
    exact absurd this hany

theorem handleWorkerResult_eq_completed (ev : WorkerResultEvent) (s : DState)
    (hna : ev.type ≠ .autofix)
    (hnv : ev.type ≠ EvType.task .verify)
    (herr : errTruthy ev.error = false) :
    TaskDispatcher.handleWorkerResult ev s =
      TaskDispatcher.enqueueReadyTasks ev.projectId
        ⟨TaskStateStore.updateStatus s.tasks ev.nodeId .completed ⟨toUpd ev.result, none, none, none⟩,
         s.jobs⟩ := by
  have h1 : (ev.type == EvType.autofix) = false := beq_eq_false_iff_ne.mpr hna
  have h2 : (ev.type == EvType.task .verify) = false := beq_eq_false_iff_ne.mpr hnv
  unfold TaskDispatcher.handleWorkerResult
  rw [h1, herr, h2]
  simp

theorem toUpd_of_ne_undef (v : Val) (h : v ≠ .undef) : toUpd v = some v := by
  cases v <;> first | exact absurd rfl h | rfl

theorem applyMeta_status_result_self (rec : TaskRecord) (st : TaskStatus) (ro : Option Val)
    (hst : rec.status = st) (hro : ∀ v, ro = some v → rec.result = v) :
    TaskStateStore.applyMeta { rec with status := st } ⟨ro, none, none, none⟩ = rec := by
  cases ro with
  | none =>
    rw [← hst]
    rfl
  | some v =>
    have hres : rec.result = v := hro v rfl
    rw [← hst, ← hres]
    rfl

theorem updateStatus_eq_self (t : List TaskRecord) (n : String) (st : TaskStatus)
    (mu : TaskStateStore.UpdateMeta)
    (h : ∀ rec ∈ t, rec.nodeId = n →
      TaskStateStore.applyMeta { rec with status := st } mu = rec) :
    TaskStateStore.updateStatus t n st mu = t := by
  unfold TaskStateStore.updateStatus
  conv_rhs => rw [← List.map_id' t]
  apply List.map_congr_left
  intro x hx
  by_cases hc : (x.nodeId == n) = true
  · rw [if_pos hc]
    exact h x hx (by simpa using hc)
  · rw [if_neg hc]

/-- Claim C9: delivering the same completed (non-verify, non-autofix,
non-error) worker result event twice in sequence leaves the dispatcher
state (task rows and job list) exactly as after the first delivery — the
node is completed with the event's result attached and the second delivery
enqueues nothing new. -/
theorem claim_C9_duplicate_completed_result_is_noop (ev : WorkerResultEvent) (s : DState)
    (hna : ev.type ≠ .autofix)
    (hnv : ev.type ≠ EvType.task .verify)
    (herr : errTruthy ev.error = false) :
    let post := TaskDispatcher.handleWorkerResult ev s
    TaskDispatcher.handleWorkerResult ev post = post ∧
    ∀ rec ∈ post.tasks, rec.nodeId = ev.nodeId →
      rec.status = .completed ∧ (ev.result ≠ .undef → rec.result = ev.result) := by
  intro post
  have hbr := fun (st : DState) => handleWorkerResult_eq_completed ev st hna hnv herr
  have hpost : post = TaskDispatcher.enqueueReadyTasks ev.projectId
      ⟨TaskStateStore.updateStatus s.tasks ev.nodeId .completed ⟨toUpd ev.result, none, none, none⟩,
       s.jobs⟩ := hbr s
  -- every record named after the event's node is completed in the post state,
  -- with the event's result attached when one was supplied
  have hK : ∀ rec ∈ post.tasks, rec.nodeId = ev.nodeId →
      rec.status = .completed ∧ (∀ v, toUpd ev.result = some v → rec.result = v) := by
    intro rec hrec hid
    rw [hpost, enqueueReadyTasks_tasks] at hrec
    rw [List.mem_map] at hrec
    obtain ⟨u, hu, hFu⟩ := hrec
    have hunid : u.nodeId = ev.nodeId := by
      by_cases hc : ((TaskStateStore.listReadyTasks
          (TaskStateStore.updateStatus s.tasks ev.nodeId .completed
            ⟨toUpd ev.result, none, none, none⟩)).any (fun r => r.nodeId == u.nodeId)) = true
      · rw [← hid, ← hFu]
        simp only [hc, if_true]
        rfl
      · rw [← hid, ← hFu]
        simp [hc]
    have hust : u.status = .completed := TaskStateStore.updateStatus_status_of_mem hu hunid
    have hnoready : ((TaskStateStore.listReadyTasks
        (TaskStateStore.updateStatus s.tasks ev.nodeId .completed
          ⟨toUpd ev.result, none, none, none⟩)).any (fun r => r.nodeId == u.nodeId)) = false := by
      rw [List.any_eq_false]
      intro row hrow habs
      obtain ⟨src, hsrc, _hstrip, hsid, hspend, _⟩ := TaskStateStore.listReadyTasks_source hrow
      have hrowid : row.nodeId = ev.nodeId := by
        have : row.nodeId = u.nodeId := by simpa using habs
        rw [this, hunid]
      have : src.status = .completed :=
        TaskStateStore.updateStatus_status_of_mem hsrc (by rw [hsid, hrowid])
      rw [this] at hspend
      exact absurd hspend (by decide)
    have hrecu : rec = u := by
      rw [← hFu]
      simp [hnoready]
    subst hrecu
    refine ⟨hust, ?_⟩
    intro v hv
    obtain ⟨r, _hr, hform⟩ := TaskStateStore.mem_updateStatus.mp hu
    by_cases hc : (r.nodeId == ev.nodeId) = true
    · rw [if_pos hc] at hform
      rw [hform]
      exact TaskStateStore.applyMeta_result_some _ _ _ hv
    · rw [if_neg hc] at hform
      exact absurd (by simpa using (hform ▸ hunid)) hc
  refine ⟨?_, fun rec hrec hid => ⟨(hK rec hrec hid).1, fun hne => (hK rec hrec hid).2 ev.result (toUpd_of_ne_undef ev.result hne)⟩⟩
  rw [hbr post]
  have hupd : TaskStateStore.updateStatus post.tasks ev.nodeId .completed
      ⟨toUpd ev.result, none, none, none⟩ = post.tasks := by
    apply updateStatus_eq_self
    intro rec hrec hid
    obtain ⟨h1, h2⟩ := hK rec hrec hid
    exact applyMeta_status_result_self rec _ _ h1 h2
  rw [hupd]
  have hnil : TaskStateStore.listReadyTasks post.tasks = [] := by
    rw [hpost]
    exact listReadyTasks_after_enqueue ev.projectId _
  show TaskDispatcher.enqueueReadyTasks ev.projectId post = post
  unfold TaskDispatcher.enqueueReadyTasks
  rw [hnil]
  rfl

/-- Concrete instantiation of C9: delivering the completed write result
twice gives the same state as delivering it once. -/
def c9Tasks : List TaskRecord :=
  [⟨"write:1", .write, .running, [], ["verify:1"], [], .undef, none, 0⟩,
   ⟨"verify:1", .verify, .pending, ["write:1"], [], [], .undef, none, 0⟩]

def c9State : DState := ⟨c9Tasks, []⟩

def c9Event : WorkerResultEvent :=
  ⟨"p1", "write:1", .task .write, .obj [("draft", .str "D")], none⟩

theorem claim_C9_witness :
    TaskDispatcher.handleWorkerResult c9Event (TaskDispatcher.handleWorkerResult c9Event c9State)
      = TaskDispatcher.handleWorkerResult c9Event c9State :=
  (claim_C9_duplicate_completed_result_is_noop c9Event c9State (by decide) (by decide) rfl).1

/-! Machinery for failure propagation: once a node is out of `pending`, no
worker progress/result event ever brings it back (the only transition into
`pending`, autofix success, immediately re-enqueues the node as `running`
in the same handler), so it can never again satisfy the ready query. -/

/-- No row named `n` is pending. -/
def nonPending (n : String) (t : List TaskRecord) : Prop :=
  ∀ rec ∈ t, rec.nodeId = n → rec.status ≠ .pending

theorem nonPending_updateStatus {t : List TaskRecord} {n : String} (m : String)
    (st : TaskStatus) (mu : TaskStateStore.UpdateMeta)
    (hnp : nonPending n t) (hst : st ≠ .pending) :
    nonPending n (TaskStateStore.updateStatus t m st mu) := by
  intro rec hrec hid
  obtain ⟨r, hr, hform⟩ := TaskStateStore.mem_updateStatus.mp hrec
  by_cases hc : (r.nodeId == m) = true
  · rw [if_pos hc] at hform
    rw [hform, TaskStateStore.applyMeta_status]
    exact hst
  · rw [if_neg hc] at hform
    subst hform
    exact hnp _ hr hid

theorem nonPending_updateStatus_other {t : List TaskRecord} {n : String} (m : String)
    (st : TaskStatus) (mu : TaskStateStore.UpdateMeta)
    (hnp : nonPending n t) (hm : m ≠ n) :
    nonPending n (TaskStateStore.updateStatus t m st mu) := by
  intro rec hrec hid
  obtain ⟨r, hr, hform⟩ := TaskStateStore.mem_updateStatus.mp hrec
  by_cases hc : (r.nodeId == m) = true
  · rw [if_pos hc] at hform
    have h1 : rec.nodeId = r.nodeId := by rw [hform, TaskStateStore.applyMeta_nodeId]
    have h2 : r.nodeId = m := by simpa using hc
    exact absurd (by rw [← h2, ← h1, hid] : m = n) hm
  · rw [if_neg hc] at hform
    subst hform
    exact hnp _ hr hid

theorem nonPending_updateStatus_target {t : List TaskRecord} {n : String}
    (st : TaskStatus) (mu : TaskStateStore.UpdateMeta) (hst : st ≠ .pending) :
    nonPending n (TaskStateStore.updateStatus t n st mu) := by
  intro rec hrec hid
  have hs := TaskStateStore.updateStatus_status_of_mem hrec hid
  rw [hs]
  exact hst

theorem nonPending_markBlocked {t : List TaskRecord} {n : String} (ids : List String)
    (hnp : nonPending n t) : nonPending n (TaskStateStore.markBlocked t ids) := by
  intro rec hrec hid
  obtain ⟨r, hr, hform⟩ := TaskStateStore.mem_markBlocked.mp hrec
  by_cases hc : (ids.contains r.nodeId) = true
  · rw [if_pos hc] at hform
    rw [hform]
    exact fun habs => by cases habs
  · rw [if_neg hc] at hform
    subst hform
    exact hnp _ hr hid

theorem nonPending_blockDependents {s : DState} {n : String} (nid : String)
    (hnp : nonPending n s.tasks) :
    nonPending n (TaskDispatcher.blockDependentsOnFailure s nid).tasks := by
  unfold TaskDispatcher.blockDependentsOnFailure
  split
  · exact hnp
  · split
    · exact hnp
    · exact nonPending_markBlocked _ hnp

theorem nonPending_enqueueTask {s : DState} {n : String} (pid : String) (task : TaskRecord)
    (hnp : nonPending n s.tasks) :
    nonPending n (TaskDispatcher.enqueueTask pid s task).tasks :=
  nonPending_updateStatus task.nodeId TaskStatus.running TaskStateStore.noMeta hnp (by decide)

theorem nonPending_foldl_enqueueTask {n : String} (pid : String) (L : List TaskRecord)
    (s : DState) (hnp : nonPending n s.tasks) :
    nonPending n (List.foldl (TaskDispatcher.enqueueTask pid) s L).tasks := by
  induction L generalizing s with
  | nil => exact hnp
  | cons x xs ih => exact ih _ (nonPending_enqueueTask pid x hnp)

theorem nonPending_enqueueReadyTasks {s : DState} {n : String} (pid : String)
    (hnp : nonPending n s.tasks) :
    nonPending n (TaskDispatcher.enqueueReadyTasks pid s).tasks :=
  nonPending_foldl_enqueueTask pid _ s hnp

theorem nonPending_handleAutofixFailure {s : DState} {n : String} (ev : WorkerResultEvent)
    (hnp : nonPending n s.tasks) :
    nonPending n (TaskDispatcher.handleAutofixFailure ev s).tasks := by
  unfold TaskDispatcher.handleAutofixFailure
  exact nonPending_blockDependents _ (nonPending_updateStatus _ _ _ hnp (by decide))

theorem nonPending_handleAutofixSuccess {s : DState} {n : String} (ev : WorkerResultEvent)
    (hnp : nonPending n s.tasks) :
    nonPending n (TaskDispatcher.handleAutofixSuccess ev s).tasks := by
  unfold TaskDispatcher.handleAutofixSuccess
  split
  · exact hnp
  · rename_i task htask0
    dsimp only
    split
    · rename_i hnone
      -- the freshly updated row is still present, so the inner lookup cannot fail:
      -- this branch is unreachable, shown by computing the lookup
      exfalso
      rw [TaskStateStore.getTask_updateStatus, htask0] at hnone
      simp at hnone
    · rename_i refreshed hrefr
      have hrid : refreshed.nodeId = ev.nodeId := TaskStateStore.getTask_nodeId hrefr
      intro rec hrec hid
      obtain ⟨r, hr, hform⟩ := TaskStateStore.mem_updateStatus.mp hrec
      by_cases hc : (r.nodeId == refreshed.nodeId) = true
      · rw [if_pos hc] at hform
        rw [hform, TaskStateStore.applyMeta_status]
        simp
      · rw [if_neg hc] at hform
        subst hform
        by_cases hcase : rec.nodeId = ev.nodeId
        · rw [← hrid] at hcase
          exact absurd (by simpa using hcase) hc
        · exact hnp rec (TaskStateStore.updateStatus_other_of_mem hr hcase) hid

theorem nonPending_handleVerifyResult {s : DState} {n : String} (ev : WorkerResultEvent)
    (hnp : nonPending n s.tasks) :
    nonPending n (TaskDispatcher.handleVerifyResult ev s).tasks := by
  unfold TaskDispatcher.handleVerifyResult
  dsimp only
  split
  · exact nonPending_enqueueReadyTasks _ (nonPending_updateStatus _ _ _ hnp (by decide))
  · split
    · exact nonPending_enqueueReadyTasks _ (nonPending_updateStatus _ _ _ hnp (by decide))
    · split
      · exact nonPending_blockDependents _ (nonPending_updateStatus _ _ _ hnp (by decide))
      · split
        · split
          · exact hnp
          · exact nonPending_updateStatus _ _ _ hnp (by decide)
        · exact hnp

theorem nonPending_handleWorkerResult {s : DState} {n : String} (ev : WorkerResultEvent)
    (hnp : nonPending n s.tasks) :
    nonPending n (TaskDispatcher.handleWorkerResult ev s).tasks := by
  unfold TaskDispatcher.handleWorkerResult
  split
  · split
    · exact nonPending_handleAutofixFailure ev hnp
    · exact nonPending_handleAutofixSuccess ev hnp
  · split
    · exact nonPending_blockDependents _ (nonPending_updateStatus _ _ _ hnp (by decide))
    · split
      · exact nonPending_handleVerifyResult ev hnp
      · exact nonPending_enqueueReadyTasks _ (nonPending_updateStatus _ _ _ hnp (by decide))

theorem nonPending_handleWorkerProgress {s : DState} {n : String} (ev : WorkerProgressEvent)
    (hnp : nonPending n s.tasks) :
    nonPending n (TaskDispatcher.handleWorkerProgress ev s).tasks := by
  unfold TaskDispatcher.handleWorkerProgress
  split
  · split
    · exact nonPending_handleAutofixFailure _ hnp
    · exact hnp
  · split
    · exact nonPending_updateStatus _ _ _ hnp (by decide)
    · split
      · exact nonPending_blockDependents _ (nonPending_updateStatus _ _ _ hnp (by decide))
      · exact hnp

theorem nonPending_stepEvent {s : DState} {n : String} (e : Event)
    (hnp : nonPending n s.tasks) : nonPending n (stepEvent s e).tasks := by
  cases e with
  | progress ev => exact nonPending_handleWorkerProgress ev hnp
  | result ev => exact nonPending_handleWorkerResult ev hnp

theorem nonPending_runTrace {s : DState} {n : String} (evs : List Event)
    (hnp : nonPending n s.tasks) : nonPending n (runTrace s evs).tasks := by
  induction evs generalizing s with
  | nil => exact hnp
  | cons e rest ih => exact ih (nonPending_stepEvent e hnp)

theorem listReadyTasks_not_nonPending {t : List TaskRecord} {n : String} {row : TaskRecord}
    (hrow : row ∈ TaskStateStore.listReadyTasks t) (hnp : nonPending n t) :
    row.nodeId ≠ n := by
  obtain ⟨src, hsrc, _hstrip, hsid, hspend, _⟩ := TaskStateStore.listReadyTasks_source hrow
  intro habs
  exact hnp src hsrc (by rw [hsid, habs]) hspend

/-! Claim C1: failure propagation. -/

def c1F : TaskRecord := ⟨"F", .write, .running, [], ["A"], [], .undef, none, 0⟩
def c1A : TaskRecord := ⟨"A", .verify, .pending, ["F"], ["B"], [], .undef, none, 0⟩
def c1B : TaskRecord := ⟨"B", .assemble, .pending, ["A"], [], [], .undef, none, 0⟩
def c1State : DState := ⟨[c1F, c1A, c1B], []⟩
def c1FailEvent : WorkerProgressEvent := ⟨"p1", "F", .task .write, .failed, some "boom"⟩
def c1Post : DState := TaskDispatcher.handleWorkerProgress c1FailEvent c1State

/-- Counterexample to claim C1 as stated: in the chain F → A → B, a failed
progress event for F leaves B — a member of the transitive closure of
dependents of F — in status pending, not blocked; only the direct
dependent A is blocked. -/
theorem claim_C1_counterexample :
    (TaskStateStore.getTask c1Post.tasks "B").map (fun rec => rec.status) = some .pending ∧
    (TaskStateStore.getTask c1Post.tasks "A").map (fun rec => rec.status) = some .blocked := by
  constructor <;> rfl

/-- The dispatcher events on which node `nid` is marked failed, read off
the branch structure of handleWorkerProgress, handleWorkerResult,
handleVerifyResult and handleAutofixFailure: a failed progress event
(worker or autofix), a worker result carrying a truthy error (worker or
autofix), or a verify result whose status is hard_fail. -/
def marksFailed : Event → String → Prop
  | .progress ev, nid => ev.nodeId = nid ∧ ev.status = .failed
  | .result ev, nid => ev.nodeId = nid ∧
      (errTruthy ev.error = true ∨
       (ev.type = .task .verify ∧ statusIs ev.result "hard_fail" = true))

theorem failUpdate_core (s : DState) (nid : String) (mu : TaskStateStore.UpdateMeta)
    (r : TaskRecord) (hr : TaskStateStore.getTask s.tasks nid = some r) :
    (∀ rec ∈ (TaskDispatcher.blockDependentsOnFailure
        ⟨TaskStateStore.updateStatus s.tasks nid .failed mu, s.jobs⟩ nid).tasks,
      rec.nodeId ∈ r.dependents → rec.status = .blocked) ∧
    (∀ old ∈ s.tasks, old.nodeId ≠ nid → old.nodeId ∉ r.dependents →
      old ∈ (TaskDispatcher.blockDependentsOnFailure
        ⟨TaskStateStore.updateStatus s.tasks nid .failed mu, s.jobs⟩ nid).tasks) := by
  have hget1 : TaskStateStore.getTask
      (TaskStateStore.updateStatus s.tasks nid .failed mu) nid =
      some (TaskStateStore.applyMeta { r with status := .failed } mu) := by
    rw [TaskStateStore.getTask_updateStatus, hr]
    simp only [Option.map_some']
    rw [if_pos (by simpa using TaskStateStore.getTask_nodeId hr)]
  have hdeps1 : (TaskStateStore.applyMeta { r with status := .failed } mu).dependents
      = r.dependents := TaskStateStore.applyMeta_dependents _ _
  constructor
  · intro rec hrec hdep
    unfold TaskDispatcher.blockDependentsOnFailure at hrec
    rw [hget1] at hrec
    dsimp only at hrec
    by_cases hlen : ((TaskStateStore.applyMeta { r with status := .failed }
        mu).dependents.length == 0) = true
    · rw [hdeps1] at hlen
      have hnil : r.dependents = [] := List.length_eq_zero.mp (by simpa using hlen)
      rw [hnil] at hdep
      cases hdep
    · rw [if_neg hlen] at hrec
      rw [hdeps1] at hrec
      exact TaskStateStore.markBlocked_status_of_mem hrec hdep
  · intro old hold hne hnotdep
    have hmem1 : old ∈ TaskStateStore.updateStatus s.tasks nid .failed mu := by
      apply TaskStateStore.mem_updateStatus.mpr
      exact ⟨old, hold, by rw [if_neg (by simpa using hne)]⟩
    unfold TaskDispatcher.blockDependentsOnFailure
    rw [hget1]
    dsimp only
    by_cases hlen : ((TaskStateStore.applyMeta { r with status := .failed }
        mu).dependents.length == 0) = true
    · rw [if_pos hlen]
      exact hmem1
    · rw [if_neg hlen]
      apply TaskStateStore.mem_markBlocked.mpr
      refine ⟨old, hmem1, ?_⟩
      rw [hdeps1, if_neg (by simpa using hnotdep)]

/-- Claim C1 (amended): whenever a dispatcher event marks a node failed —
a failed worker progress event, a worker result carrying an error
(including autofix failures), or a verify result with hard_fail status —
the dispatcher transitions exactly the node's direct dependents (the
record's dependents list) to blocked: every record other than the failed
node and its direct dependents is carried over unchanged, so nodes further
down the transitive closure keep their status; and under any further
sequence of worker progress/result events none of the directly blocked
dependents ever appears in a listReadyTasks() result. -/
theorem claim_C1_amended_failure_blocks_direct_dependents (s : DState) (e : Event)
    (nid : String) (r : TaskRecord)
    (hfail : marksFailed e nid)
    (hr : TaskStateStore.getTask s.tasks nid = some r) :
    (∀ rec ∈ (stepEvent s e).tasks, rec.nodeId ∈ r.dependents → rec.status = .blocked) ∧
    (∀ old ∈ s.tasks, old.nodeId ≠ nid → old.nodeId ∉ r.dependents →
      old ∈ (stepEvent s e).tasks) ∧
    (∀ d ∈ r.dependents, ∀ evs : List Event,
      ∀ row ∈ TaskStateStore.listReadyTasks (runTrace (stepEvent s e) evs).tasks,
        row.nodeId ≠ d) := by
  have hpost : ∃ mu : TaskStateStore.UpdateMeta,
      stepEvent s e = TaskDispatcher.blockDependentsOnFailure
        ⟨TaskStateStore.updateStatus s.tasks nid .failed mu, s.jobs⟩ nid := by
    cases e with
    | progress ev =>
      obtain ⟨hnid, hst⟩ := hfail
      subst hnid
      show ∃ mu, TaskDispatcher.handleWorkerProgress ev s = _
      unfold TaskDispatcher.handleWorkerProgress
      have hbeq : (ev.status == ProgressStatus.failed) = true := by rw [hst]; decide
      have hbne : (ev.status == ProgressStatus.running) = false := by rw [hst]; decide
      by_cases hty : (ev.type == EvType.autofix) = true
      · rw [if_pos hty, if_pos hbeq]
        exact ⟨⟨none, some (some (ev.error.getD "AutoFix failed")), none, none⟩, rfl⟩
      · rw [if_neg hty, if_neg (by rw [hbne]; exact Bool.false_ne_true), if_pos hbeq]
        exact ⟨⟨none, errUpd ev.error, none, none⟩, rfl⟩
    | result ev =>
      obtain ⟨hnid, hdisj⟩ := hfail
      subst hnid
      show ∃ mu, TaskDispatcher.handleWorkerResult ev s = _
      unfold TaskDispatcher.handleWorkerResult
      by_cases herr : errTruthy ev.error = true
      · by_cases hty : (ev.type == EvType.autofix) = true
        · rw [if_pos hty, if_pos herr]
          exact ⟨⟨none, some (some (ev.error.getD "AutoFix failed")), none, none⟩, rfl⟩
        · rw [if_neg hty, if_pos herr]
          exact ⟨⟨none, errUpd ev.error, none, none⟩, rfl⟩
      · rcases hdisj with herr2 | ⟨hty, hhf⟩
        · exact absurd herr2 herr
        · have htyne : (ev.type == EvType.autofix) = false := by rw [hty]; decide
          have hstat : (ev.result.get "status").truthy = true :=
            statusIs_truthy ev.result "hard_fail" hhf (by decide)
          have hguard : (ev.type == EvType.task .verify
              && (ev.result.get "status").truthy) = true := by
            rw [hty, hstat]
            rfl
          rw [if_neg (by rw [htyne]; exact Bool.false_ne_true), if_neg herr, if_pos hguard]
          unfold TaskDispatcher.handleVerifyResult
          dsimp only
          have htr : ev.result.truthy = true := Val.truthy_of_get_truthy _ _ hstat
          have hnottr : (!ev.result.truthy) = false := by rw [htr]; decide
          have haccept : statusIs ev.result "accept" = false :=
            statusIs_ne ev.result "hard_fail" "accept" hhf (by decide)
          rw [if_neg (by rw [hnottr]; exact Bool.false_ne_true),
            if_neg (by rw [haccept]; exact Bool.false_ne_true), if_pos hhf]
          exact ⟨⟨toUpd (ev.result.get "draft"), some (some "Verifier hard fail"), none, none⟩,
            rfl⟩
  obtain ⟨mu, hpost⟩ := hpost
  obtain ⟨hblocked, hframe⟩ := failUpdate_core s nid mu r hr
  rw [hpost]
  refine ⟨hblocked, hframe, ?_⟩
  intro d hd evs row hrow
  have hnp : nonPending d (TaskDispatcher.blockDependentsOnFailure
      ⟨TaskStateStore.updateStatus s.tasks nid .failed mu, s.jobs⟩ nid).tasks := by
    intro rec hrec hid
    rw [hblocked rec hrec (by rw [hid]; exact hd)]
    decide
  exact listReadyTasks_not_nonPending hrow (nonPending_runTrace evs hnp)

/-- Concrete instantiation of the amended C1: in the chain F → A → B, after
the failed event for F the direct dependent A never shows up in the ready
list (here checked after a subsequent completed result for B), and the
transitive dependent B is carried over unchanged. -/
theorem claim_C1_witness :
    ((TaskStateStore.listReadyTasks (runTrace c1Post
        [Event.result ⟨"p1", "B", .task .assemble, .str "x", none⟩]).tasks).all
      (fun row => row.nodeId != "A")) = true ∧
    c1B ∈ c1Post.tasks := by
  have h := claim_C1_amended_failure_blocks_direct_dependents c1State
    (Event.progress c1FailEvent) "F" c1F ⟨rfl, rfl⟩ rfl
  constructor
  · rw [List.all_eq_true]
    intro row hrow
    have h2 := h.2.2 "A" (by decide) [Event.result ⟨"p1", "B", .task .assemble, .str "x", none⟩]
      row hrow
    simpa using h2
  · exact h.2.1 c1B (by simp [c1State]) (by decide) (by decide)


/-! Claim C5: behavior of buildDag on malformed outline entries. -/

namespace PlannerAgent

theorem addNode_mem {nodes : List TaskNode} {n : TaskNode} (node : TaskNode)
    (h : n ∈ nodes) : n ∈ addNode nodes node := by
  unfold addNode
  split
  · exact h
  · exact List.mem_append_left _ h

theorem addNode_exists_id (nodes : List TaskNode) (node : TaskNode) :
    ∃ n ∈ addNode nodes node, n.id = node.id := by
  unfold addNode
  by_cases h : (List.any nodes (fun n => n.id == node.id)) = true
  · rw [if_pos h]
    rw [List.any_eq_true] at h
    obtain ⟨n, hn, hid⟩ := h
    exact ⟨n, hn, by simpa using hid⟩
  · rw [if_neg h]
    exact ⟨node, List.mem_append_right _ (by simp), rfl⟩

theorem processEntry_nodes_mono (ctx : PlannerContext) (hE hT : Bool) (acc : BuildAcc)
    (e : FlattenedOutlineNode) {n : TaskNode} (h : n ∈ acc.nodes) :
    n ∈ (processEntry ctx hE hT acc e).nodes := by
  unfold processEntry
  dsimp only
  split
  · exact addNode_mem _ (addNode_mem _ h)
  · apply addNode_mem
    apply addNode_mem
    apply addNode_mem
    split
    · exact addNode_mem _ (addNode_mem _ h)
    · exact addNode_mem _ h

theorem processEntry_assemble_exists (ctx : PlannerContext) (hE hT : Bool) (acc : BuildAcc)
    (e : FlattenedOutlineNode) :
    ∃ node ∈ (processEntry ctx hE hT acc e).nodes,
      node.id = "assemble:" ++ optStr e.node.chapter_number := by
  unfold processEntry
  dsimp only
  split
  · exact addNode_exists_id _ _
  · exact addNode_exists_id _ _

theorem foldl_processEntry_mono (ctx : PlannerContext) (hE hT : Bool)
    (L : List FlattenedOutlineNode) (acc : BuildAcc) {n : TaskNode} (h : n ∈ acc.nodes) :
    n ∈ (List.foldl (processEntry ctx hE hT) acc L).nodes := by
  induction L generalizing acc with
  | nil => exact h
  | cons x xs ih => exact ih _ (processEntry_nodes_mono ctx hE hT acc x h)

theorem foldl_processEntry_assemble (ctx : PlannerContext) (hE hT : Bool)
    (L : List FlattenedOutlineNode) (acc : BuildAcc) :
    ∀ e ∈ L, ∃ node ∈ (List.foldl (processEntry ctx hE hT) acc L).nodes,
      node.id = "assemble:" ++ optStr e.node.chapter_number := by
  induction L generalizing acc with
  | nil => intro e he; cases he
  | cons x xs ih =>
    intro e he
    rw [List.mem_cons] at he
    cases he with
    | inl heq =>
      subst heq
      obtain ⟨node, hmem, hid⟩ := processEntry_assemble_exists ctx hE hT acc e
      exact ⟨node, foldl_processEntry_mono ctx hE hT xs _ hmem, hid⟩
    | inr hmem => exact ih _ e hmem

end PlannerAgent

def c5GoodNode : OutlineNode := ⟨some "1", some "Alpha", none, true, none, false, []⟩
def c5BadNode : OutlineNode := ⟨none, none, none, true, none, false, []⟩
def c5Ctx : PlannerContext := ⟨"p1", [c5GoodNode, c5BadNode], [], [], .undef, .undef, .undef⟩

/-- Counterexample to claim C5 as stated: an outline entry missing both
chapter number and title is not skipped by buildDag — it produces its own
prepare/write/verify/assemble chain (with the string "undefined" standing
in for the missing chapter number), so the DAG holds 9 nodes where
skipping would give 5. -/
theorem claim_C5_counterexample :
    ((PlannerAgent.buildDag c5Ctx).nodes.any (fun node => node.id == "prepare:undefined")) = true ∧
    (PlannerAgent.buildDag c5Ctx).nodes.length = 9 := by
  constructor <;>
    (simp only [PlannerAgent.buildDag, PlannerAgent.flattenOutline, PlannerAgent.flattenWalk,
      c5Ctx, c5GoodNode, c5BadNode]
     decide)

/-- Claim C5 (amended): buildDag never raises and never skips: every
flattened outline entry, malformed or not, contributes task nodes — in
particular a node with id "assemble:" followed by the entry's chapter
number (the string "undefined" when it is missing) always exists in the
returned DAG. Skipping of entries missing id/title happens upstream, in
parseTemplateToOutline, before the planner runs. -/
theorem claim_C5_amended_buildDag_processes_all_entries (ctx : PlannerContext) :
    ∀ e ∈ PlannerAgent.flattenOutline ctx.outline,
      ∃ node ∈ (PlannerAgent.buildDag ctx).nodes,
        node.id = "assemble:" ++ optStr e.node.chapter_number := by
  intro e he
  unfold PlannerAgent.buildDag
  dsimp only
  obtain ⟨node, hmem, hid⟩ := PlannerAgent.foldl_processEntry_assemble ctx
    (List.any ctx.assetsIndex (fun a => a.embed_ready))
    (List.any ctx.assetsIndex (fun a => a.table_ready))
    (PlannerAgent.flattenOutline ctx.outline) ⟨[], []⟩ e he
  refine ⟨node, ?_, hid⟩
  split
  · exact PlannerAgent.addNode_mem _ hmem
  · exact hmem

/-- Concrete instantiation of the amended C5: the malformed entry of the
counterexample context still yields its assemble node. -/
theorem claim_C5_witness :
    ((PlannerAgent.buildDag c5Ctx).nodes.any (fun node => node.id == "assemble:undefined")) = true := by
  have h := claim_C5_amended_buildDag_processes_all_entries c5Ctx
    ⟨c5BadNode, none⟩
    (by
      simp only [PlannerAgent.flattenOutline, PlannerAgent.flattenWalk, c5Ctx, c5GoodNode, c5BadNode]
      simp)
  obtain ⟨node, hmem, hid⟩ := h
  rw [List.any_eq_true]
  exact ⟨node, hmem, by simpa using hid⟩

/-! String helpers for reasoning about stage-prefixed node ids. -/

theorem string_ext {a b : String} (h : a.data = b.data) : a = b := by
  cases a
  cases b
  simp only at h
  rw [h]

theorem string_append_left_cancel {p a b : String} (h : p ++ a = p ++ b) : a = b := by
  apply string_ext
  have hd : (p ++ a).data = (p ++ b).data := by rw [h]
  rw [String.data_append, String.data_append] at hd
  exact List.append_cancel_left hd

theorem string_append_head_ne {a b : String} (c d : String)
    (ha : a.data ≠ []) (hb : b.data ≠ []) (hne : a.data.head? ≠ b.data.head?) :
    a ++ c ≠ b ++ d := by
  intro h
  apply hne
  have hd : (a ++ c).data = (b ++ d).data := by rw [h]
  rw [String.data_append, String.data_append] at hd
  cases hA : a.data with
  | nil => exact absurd hA ha
  | cons x xs =>
    cases hB : b.data with
    | nil => exact absurd hB hb
    | cons y ys =>
      rw [hA, hB] at hd
      simp only [List.cons_append] at hd
      simp only [List.head?_cons]
      rw [List.cons.injEq] at hd
      rw [hd.1]

/-! Shape characterization of the nodes produced by buildDag's main loop. -/

namespace PlannerAgent

theorem addNode_cases {nodes : List TaskNode} {n node : TaskNode}
    (h : n ∈ addNode nodes node) : n ∈ nodes ∨ n = node := by
  unfold addNode at h
  by_cases hc : (List.any nodes (fun x => x.id == node.id)) = true
  · rw [if_pos hc] at h
    exact Or.inl h
  · rw [if_neg hc] at h
    rw [List.append_eq, List.mem_append] at h
    cases h with
    | inl h => exact Or.inl h
    | inr h => exact Or.inr (by simpa using h)

/-- The possible shapes of a task node emitted by one iteration of
buildDag's main loop for the flattened entry `e`. -/
def processShapes (hE hT : Bool) (e : FlattenedOutlineNode) (n : TaskNode) : Prop :=
  n.outlineId = e.node.chapter_number ∧
  ((fixedTruthy e.node = true ∧ n.type = .materialize_fixed ∧
      n.id = "materialize:" ++ optStr e.node.chapter_number ∧ n.dependencies = []) ∨
   (fixedTruthy e.node = true ∧ n.type = .assemble ∧
      n.id = "assemble:" ++ optStr e.node.chapter_number ∧
      n.dependencies = ["materialize:" ++ optStr e.node.chapter_number]) ∨
   (fixedTruthy e.node = false ∧ n.type = .prepare ∧
      n.id = "prepare:" ++ optStr e.node.chapter_number ∧ n.dependencies = []) ∨
   (fixedTruthy e.node = false ∧ (hE || hT) = true ∧ n.type = .retrieve ∧
      n.id = "retrieve:" ++ optStr e.node.chapter_number ∧
      n.dependencies = ["prepare:" ++ optStr e.node.chapter_number]) ∨
   (fixedTruthy e.node = false ∧ n.type = .write ∧
      n.id = "write:" ++ optStr e.node.chapter_number ∧
      n.dependencies = [if hE || hT then "retrieve:" ++ optStr e.node.chapter_number
                        else "prepare:" ++ optStr e.node.chapter_number]) ∨
   (fixedTruthy e.node = false ∧ n.type = .verify ∧
      n.id = "verify:" ++ optStr e.node.chapter_number ∧
      n.dependencies = ["write:" ++ optStr e.node.chapter_number]) ∨
   (fixedTruthy e.node = false ∧ n.type = .assemble ∧
      n.id = "assemble:" ++ optStr e.node.chapter_number ∧
      n.dependencies = ["verify:" ++ optStr e.node.chapter_number]))

theorem processEntry_shapes (ctx : PlannerContext) (hE hT : Bool) (acc : BuildAcc)
    (e : FlattenedOutlineNode) :
    ∀ n ∈ (processEntry ctx hE hT acc e).nodes, n ∈ acc.nodes ∨ processShapes hE hT e n := by
  intro n hn
  unfold processEntry at hn
  dsimp only at hn
  by_cases hfix : fixedTruthy e.node = true
  · rw [if_pos hfix] at hn
    rcases addNode_cases hn with h1 | rfl
    · rcases addNode_cases h1 with h2 | rfl
      · exact Or.inl h2
      · exact Or.inr ⟨rfl, Or.inl ⟨hfix, rfl, rfl, rfl⟩⟩
    · exact Or.inr ⟨rfl, Or.inr (Or.inl ⟨hfix, rfl, rfl, rfl⟩)⟩
  · rw [if_neg hfix] at hn
    rw [Bool.not_eq_true] at hfix
    rcases addNode_cases hn with h1 | rfl
    · rcases addNode_cases h1 with h2 | rfl
      · rcases addNode_cases h2 with h3 | rfl
        · by_cases hor : (hE || hT) = true
          · rw [if_pos hor] at h3
            rcases addNode_cases h3 with h4 | rfl
            · rcases addNode_cases h4 with h5 | rfl
              · exact Or.inl h5
              · exact Or.inr ⟨rfl, Or.inr (Or.inr (Or.inl ⟨hfix, rfl, rfl, rfl⟩))⟩
            · exact Or.inr ⟨rfl, Or.inr (Or.inr (Or.inr (Or.inl ⟨hfix, hor, rfl, rfl, rfl⟩)))⟩
          · rw [if_neg hor] at h3
            rcases addNode_cases h3 with h4 | rfl
            · exact Or.inl h4
            · exact Or.inr ⟨rfl, Or.inr (Or.inr (Or.inl ⟨hfix, rfl, rfl, rfl⟩))⟩
        · exact Or.inr ⟨rfl, Or.inr (Or.inr (Or.inr (Or.inr (Or.inl ⟨hfix, rfl, rfl, rfl⟩))))⟩
      · exact Or.inr ⟨rfl, Or.inr (Or.inr (Or.inr (Or.inr (Or.inr (Or.inl ⟨hfix, rfl, rfl, rfl⟩)))))⟩
    · exact Or.inr ⟨rfl, Or.inr (Or.inr (Or.inr (Or.inr (Or.inr (Or.inr ⟨hfix, rfl, rfl, rfl⟩)))))⟩

theorem foldl_processEntry_shapes (ctx : PlannerContext) (hE hT : Bool)
    (L : List FlattenedOutlineNode) (acc : BuildAcc) :
    ∀ n ∈ (List.foldl (processEntry ctx hE hT) acc L).nodes,
      n ∈ acc.nodes ∨ ∃ e ∈ L, processShapes hE hT e n := by
  induction L generalizing acc with
  | nil => exact fun n hn => Or.inl hn
  | cons x xs ih =>
    intro n hn
    rcases ih (processEntry ctx hE hT acc x) n hn with h | ⟨e, he, hsh⟩
    · rcases processEntry_shapes ctx hE hT acc x n h with h2 | hsh
      · exact Or.inl h2
      · exact Or.inr ⟨x, List.mem_cons_self .., hsh⟩
    · exact Or.inr ⟨e, List.mem_cons_of_mem _ he, hsh⟩

theorem buildDag_shapes (ctx : PlannerContext) :
    ∀ n ∈ (buildDag ctx).nodes,
      (∃ e ∈ flattenOutline ctx.outline,
        processShapes (List.any ctx.assetsIndex (fun a => a.embed_ready))
          (List.any ctx.assetsIndex (fun a => a.table_ready)) e n) ∨
      (n.type = .assemble ∧ n.outlineId = none ∧ n.id = "assemble:document") := by
  intro n hn
  unfold buildDag at hn
  dsimp only at hn
  split at hn
  · rcases addNode_cases hn with h1 | rfl
    · rcases foldl_processEntry_shapes _ _ _ _ _ n h1 with h2 | ⟨e, he, hsh⟩
      · cases h2
      · exact Or.inl ⟨e, he, hsh⟩
    · exact Or.inr ⟨rfl, rfl, rfl⟩
  · rcases foldl_processEntry_shapes _ _ _ _ _ n hn with h2 | ⟨e, he, hsh⟩
    · cases h2
    · exact Or.inl ⟨e, he, hsh⟩

end PlannerAgent

/-! Claim C6: project-wide retrieval policy. -/

namespace PlannerAgent

theorem exists_id_addNode_mono {nodes : List TaskNode} (node : TaskNode) {i : String}
    (h : ∃ n ∈ nodes, n.id = i) : ∃ n ∈ addNode nodes node, n.id = i :=
  let ⟨n, hm, hi⟩ := h
  ⟨n, addNode_mem _ hm, hi⟩

theorem processEntry_retrieve_write_exist (ctx : PlannerContext) (hE hT : Bool)
    (acc : BuildAcc) (e : FlattenedOutlineNode)
    (hor : (hE || hT) = true) (hfix : fixedTruthy e.node = false) :
    (∃ n ∈ (processEntry ctx hE hT acc e).nodes,
        n.id = "retrieve:" ++ optStr e.node.chapter_number) ∧
    (∃ n ∈ (processEntry ctx hE hT acc e).nodes,
        n.id = "write:" ++ optStr e.node.chapter_number) := by
  unfold processEntry
  dsimp only
  rw [if_neg (by rw [hfix]; exact Bool.false_ne_true)]
  simp only [hor, if_true]
  constructor
  · apply exists_id_addNode_mono
    apply exists_id_addNode_mono
    apply exists_id_addNode_mono
    exact addNode_exists_id _ _
  · apply exists_id_addNode_mono
    apply exists_id_addNode_mono
    exact addNode_exists_id _ _

theorem foldl_retrieve_write_exist (ctx : PlannerContext) (hE hT : Bool)
    (L : List FlattenedOutlineNode) (acc : BuildAcc) (hor : (hE || hT) = true) :
    ∀ e ∈ L, fixedTruthy e.node = false →
      (∃ n ∈ (List.foldl (processEntry ctx hE hT) acc L).nodes,
          n.id = "retrieve:" ++ optStr e.node.chapter_number) ∧
      (∃ n ∈ (List.foldl (processEntry ctx hE hT) acc L).nodes,
          n.id = "write:" ++ optStr e.node.chapter_number) := by
  induction L generalizing acc with
  | nil => intro e he; cases he
  | cons x xs ih =>
    intro e he hfix
    rw [List.mem_cons] at he
    cases he with
    | inl heq =>
      subst heq
      obtain ⟨⟨n1, hm1, hid1⟩, ⟨n2, hm2, hid2⟩⟩ :=
        processEntry_retrieve_write_exist ctx hE hT acc e hor hfix
      exact ⟨⟨n1, foldl_processEntry_mono ctx hE hT xs _ hm1, hid1⟩,
             ⟨n2, foldl_processEntry_mono ctx hE hT xs _ hm2, hid2⟩⟩
    | inr hmem => exact ih _ e hmem hfix

end PlannerAgent

/-- Claim C6: the decision to insert retrieve nodes is a single
project-wide OR over all assets. If no asset has embed_ready or
table_ready, the DAG contains no retrieve node anywhere and every write
node's dependencies are exactly its chapter's prepare node; if at least
one asset has either flag, every retrieve node depends on its chapter's
prepare node, every write node depends on its chapter's retrieve node
instead of prepare, and every non-fixed chapter gets both a retrieve and a
write node. -/
theorem claim_C6_project_wide_retrieval_policy (ctx : PlannerContext) :
    let d := PlannerAgent.buildDag ctx
    ((List.any ctx.assetsIndex (fun a => a.embed_ready) ||
        List.any ctx.assetsIndex (fun a => a.table_ready)) = false →
      (∀ n ∈ d.nodes, n.type ≠ .retrieve) ∧
      (∀ n ∈ d.nodes, n.type = .write →
        n.id = "write:" ++ optStr n.outlineId ∧
        n.dependencies = ["prepare:" ++ optStr n.outlineId])) ∧
    ((List.any ctx.assetsIndex (fun a => a.embed_ready) ||
        List.any ctx.assetsIndex (fun a => a.table_ready)) = true →
      (∀ n ∈ d.nodes, n.type = .retrieve →
        n.id = "retrieve:" ++ optStr n.outlineId ∧
        n.dependencies = ["prepare:" ++ optStr n.outlineId]) ∧
      (∀ n ∈ d.nodes, n.type = .write →
        n.id = "write:" ++ optStr n.outlineId ∧
        n.dependencies = ["retrieve:" ++ optStr n.outlineId]) ∧
      (∀ e ∈ PlannerAgent.flattenOutline ctx.outline,
        PlannerAgent.fixedTruthy e.node = false →
        ((d.nodes.any (fun n => n.id == "retrieve:" ++ optStr e.node.chapter_number)) = true ∧
         (d.nodes.any (fun n => n.id == "write:" ++ optStr e.node.chapter_number)) = true))) := by
  intro d
  constructor
  · intro hor0
    constructor
    · intro n hn habs
      rcases PlannerAgent.buildDag_shapes ctx n hn with ⟨e, _he, _houtl, hsh⟩ | ⟨hty, _, _⟩
      · rcases hsh with ⟨_, ht, _, _⟩ | ⟨_, ht, _, _⟩ | ⟨_, ht, _, _⟩ | ⟨_, horx, _, _, _⟩ |
          ⟨_, ht, _, _⟩ | ⟨_, ht, _, _⟩ | ⟨_, ht, _, _⟩
        · rw [habs] at ht; cases ht
        · rw [habs] at ht; cases ht
        · rw [habs] at ht; cases ht
        · rw [horx] at hor0; cases hor0
        · rw [habs] at ht; cases ht
        · rw [habs] at ht; cases ht
        · rw [habs] at ht; cases ht
      · rw [habs] at hty; cases hty
    · intro n hn hw
      rcases PlannerAgent.buildDag_shapes ctx n hn with ⟨e, _he, houtl, hsh⟩ | ⟨hty, _, _⟩
      · rcases hsh with ⟨_, ht, _, _⟩ | ⟨_, ht, _, _⟩ | ⟨_, ht, _, _⟩ | ⟨_, _, ht, _, _⟩ |
          ⟨_, _ht, hid, hdep⟩ | ⟨_, ht, _, _⟩ | ⟨_, ht, _, _⟩
        · rw [hw] at ht; cases ht
        · rw [hw] at ht; cases ht
        · rw [hw] at ht; cases ht
        · rw [hw] at ht; cases ht
        · simp only [hor0, Bool.false_eq_true, if_false] at hdep
          rw [houtl]
          exact ⟨hid, hdep⟩
        · rw [hw] at ht; cases ht
        · rw [hw] at ht; cases ht
      · rw [hw] at hty; cases hty
  · intro hor
    refine ⟨?_, ?_, ?_⟩
    · intro n hn hrt
      rcases PlannerAgent.buildDag_shapes ctx n hn with ⟨e, _he, houtl, hsh⟩ | ⟨hty, _, _⟩
      · rcases hsh with ⟨_, ht, _, _⟩ | ⟨_, ht, _, _⟩ | ⟨_, ht, _, _⟩ | ⟨_, _, _ht, hid, hdep⟩ |
          ⟨_, ht, _, _⟩ | ⟨_, ht, _, _⟩ | ⟨_, ht, _, _⟩
        · rw [hrt] at ht; cases ht
        · rw [hrt] at ht; cases ht
        · rw [hrt] at ht; cases ht
        · rw [houtl]
          exact ⟨hid, hdep⟩
        · rw [hrt] at ht; cases ht
        · rw [hrt] at ht; cases ht
        · rw [hrt] at ht; cases ht
      · rw [hrt] at hty; cases hty
    · intro n hn hw
      rcases PlannerAgent.buildDag_shapes ctx n hn with ⟨e, _he, houtl, hsh⟩ | ⟨hty, _, _⟩
      · rcases hsh with ⟨_, ht, _, _⟩ | ⟨_, ht, _, _⟩ | ⟨_, ht, _, _⟩ | ⟨_, _, ht, _, _⟩ |
          ⟨_, _ht, hid, hdep⟩ | ⟨_, ht, _, _⟩ | ⟨_, ht, _, _⟩
        · rw [hw] at ht; cases ht
        · rw [hw] at ht; cases ht
        · rw [hw] at ht; cases ht
        · rw [hw] at ht; cases ht
        · simp only [hor, if_true] at hdep
          rw [houtl]
          exact ⟨hid, hdep⟩
        · rw [hw] at ht; cases ht
        · rw [hw] at ht; cases ht
      · rw [hw] at hty; cases hty
    · intro e he hfix
      obtain ⟨⟨n1, hm1, hid1⟩, ⟨n2, hm2, hid2⟩⟩ :=
        PlannerAgent.foldl_retrieve_write_exist ctx
          (List.any ctx.assetsIndex (fun a => a.embed_ready))
          (List.any ctx.assetsIndex (fun a => a.table_ready))
          (PlannerAgent.flattenOutline ctx.outline) ⟨[], []⟩ hor e he hfix
      have hlift : ∀ m : TaskNode, m ∈ (List.foldl (PlannerAgent.processEntry ctx
          (List.any ctx.assetsIndex (fun a => a.embed_ready))
          (List.any ctx.assetsIndex (fun a => a.table_ready)))
          ⟨[], []⟩ (PlannerAgent.flattenOutline ctx.outline)).nodes → m ∈ d.nodes := by
        intro m hm
        show m ∈ (PlannerAgent.buildDag ctx).nodes
        unfold PlannerAgent.buildDag
        dsimp only
        split
        · exact PlannerAgent.addNode_mem _ hm
        · exact hm
      constructor
      · rw [List.any_eq_true]
        exact ⟨n1, hlift n1 hm1, by simpa using hid1⟩
      · rw [List.any_eq_true]
        exact ⟨n2, hlift n2 hm2, by simpa using hid2⟩

def c6Asset : AssetIndexRecord := ⟨"asset1", true, false⟩
def c6Ctx0 : PlannerContext := ⟨"p1", [c5GoodNode], [], [], .undef, .undef, .undef⟩
def c6Ctx1 : PlannerContext := ⟨"p1", [c5GoodNode], [c6Asset], [], .undef, .undef, .undef⟩

/-- Concrete instantiation of C6: with no ready asset the DAG has no
retrieve node and write:1 depends on prepare:1; with an embed-ready asset
the retrieve node exists and write:1 depends on retrieve:1. -/
theorem claim_C6_witness :
    ((PlannerAgent.buildDag c6Ctx0).nodes.all (fun n => n.type != .retrieve)) = true ∧
    ((PlannerAgent.buildDag c6Ctx1).nodes.any
      (fun n => n.id == "retrieve:1")) = true := by
  constructor
  · have h := (claim_C6_project_wide_retrieval_policy c6Ctx0).1 rfl
    rw [List.all_eq_true]
    intro n hn
    have := h.1 n hn
    simpa using this
  · have h := (claim_C6_project_wide_retrieval_policy c6Ctx1).2 rfl
    have h2 := h.2.2 ⟨c5GoodNode, none⟩
      (by
        simp only [PlannerAgent.flattenOutline, PlannerAgent.flattenWalk, c6Ctx1, c5GoodNode]
        simp)
      rfl
    exact h2.1

/-! Claim C7: the document-level sink node. -/

theorem append_ne_assemble_append {p : String} (c c2 : String)
    (hp : p.data ≠ []) (hhead : p.data.head? ≠ some 'a') :
    p ++ c ≠ "assemble:" ++ c2 := by
  apply string_append_head_ne _ _ hp (by decide)
  intro h
  apply hhead
  rw [h]
  decide

theorem materialize_ne_assemble (c c2 : String) : "materialize:" ++ c ≠ "assemble:" ++ c2 :=
  append_ne_assemble_append c c2 (by decide) (by decide)

theorem prepare_ne_assemble (c c2 : String) : "prepare:" ++ c ≠ "assemble:" ++ c2 :=
  append_ne_assemble_append c c2 (by decide) (by decide)

theorem retrieve_ne_assemble (c c2 : String) : "retrieve:" ++ c ≠ "assemble:" ++ c2 :=
  append_ne_assemble_append c c2 (by decide) (by decide)

theorem write_ne_assemble (c c2 : String) : "write:" ++ c ≠ "assemble:" ++ c2 :=
  append_ne_assemble_append c c2 (by decide) (by decide)

theorem verify_ne_assemble (c c2 : String) : "verify:" ++ c ≠ "assemble:" ++ c2 :=
  append_ne_assemble_append c c2 (by decide) (by decide)

theorem assembleDoc_eq : ("assemble:document" : String) = "assemble:" ++ "document" := rfl

namespace PlannerAgent

/-- Shapes of the `from` endpoint of edges pushed by one loop iteration. -/
def edgeFromShapes (e : FlattenedOutlineNode) (ed : TaskEdge) : Prop :=
  ed.from_ = "materialize:" ++ optStr e.node.chapter_number ∨
  ed.from_ = "prepare:" ++ optStr e.node.chapter_number ∨
  ed.from_ = "retrieve:" ++ optStr e.node.chapter_number ∨
  ed.from_ = "write:" ++ optStr e.node.chapter_number ∨
  ed.from_ = "verify:" ++ optStr e.node.chapter_number

theorem processEntry_edges_shapes (ctx : PlannerContext) (hE hT : Bool) (acc : BuildAcc)
    (e : FlattenedOutlineNode) :
    ∀ ed ∈ (processEntry ctx hE hT acc e).edges, ed ∈ acc.edges ∨ edgeFromShapes e ed := by
  intro ed hed
  unfold processEntry at hed
  dsimp only at hed
  by_cases hfix : fixedTruthy e.node = true
  · rw [if_pos hfix] at hed
    rw [List.append_eq, List.mem_append] at hed
    rcases hed with h | h
    · exact Or.inl h
    · rw [List.mem_singleton] at h
      subst h
      exact Or.inr (Or.inl rfl)
  · rw [if_neg hfix] at hed
    rw [List.append_eq, List.mem_append] at hed
    rcases hed with hed | h
    · rw [List.append_eq, List.mem_append] at hed
      rcases hed with hed | h
      · rw [List.append_eq, List.mem_append] at hed
        rcases hed with hed | h
        · by_cases hor : (hE || hT) = true
          · rw [if_pos hor] at hed
            rw [List.append_eq, List.mem_append] at hed
            rcases hed with h | h
            · exact Or.inl h
            · rw [List.mem_singleton] at h
              subst h
              exact Or.inr (Or.inr (Or.inl rfl))
          · rw [if_neg hor] at hed
            exact Or.inl hed
        · rw [List.mem_singleton] at h
          subst h
          by_cases hor : (hE || hT) = true
          · simp only [hor, if_true]
            exact Or.inr (Or.inr (Or.inr (Or.inl rfl)))
          · simp only [hor, if_false]
            rw [if_neg (by exact Bool.false_ne_true)]
            exact Or.inr (Or.inr (Or.inl rfl))
      · rw [List.mem_singleton] at h
        subst h
        exact Or.inr (Or.inr (Or.inr (Or.inr (Or.inl rfl))))
    · rw [List.mem_singleton] at h
      subst h
      exact Or.inr (Or.inr (Or.inr (Or.inr (Or.inr rfl))))

theorem foldl_processEntry_edges_shapes (ctx : PlannerContext) (hE hT : Bool)
    (L : List FlattenedOutlineNode) (acc : BuildAcc) :
    ∀ ed ∈ (List.foldl (processEntry ctx hE hT) acc L).edges,
      ed ∈ acc.edges ∨ ∃ e ∈ L, edgeFromShapes e ed := by
  induction L generalizing acc with
  | nil => exact fun ed hed => Or.inl hed
  | cons x xs ih =>
    intro ed hed
    rcases ih (processEntry ctx hE hT acc x) ed hed with h | ⟨e, he, hsh⟩
    · rcases processEntry_edges_shapes ctx hE hT acc x ed h with h2 | hsh
      · exact Or.inl h2
      · exact Or.inr ⟨x, List.mem_cons_self .., hsh⟩
    · exact Or.inr ⟨e, List.mem_cons_of_mem _ he, hsh⟩

theorem processEntry_edges_mono (ctx : PlannerContext) (hE hT : Bool) (acc : BuildAcc)
    (e : FlattenedOutlineNode) {ed : TaskEdge} (h : ed ∈ acc.edges) :
    ed ∈ (processEntry ctx hE hT acc e).edges := by
  unfold processEntry
  dsimp only
  split
  · exact List.mem_append_left _ h
  · apply List.mem_append_left
    apply List.mem_append_left
    apply List.mem_append_left
    split
    · exact List.mem_append_left _ h
    · exact h

theorem foldl_processEntry_edges_mono (ctx : PlannerContext) (hE hT : Bool)
    (L : List FlattenedOutlineNode) (acc : BuildAcc) {ed : TaskEdge} (h : ed ∈ acc.edges) :
    ed ∈ (List.foldl (processEntry ctx hE hT) acc L).edges := by
  induction L generalizing acc with
  | nil => exact h
  | cons x xs ih => exact ih _ (processEntry_edges_mono ctx hE hT acc x h)

/-- The edges guaranteed to exist after processing entry `e`: one whose
source is each non-assemble node the iteration emits. -/
theorem processEntry_edges_exist (ctx : PlannerContext) (hE hT : Bool) (acc : BuildAcc)
    (e : FlattenedOutlineNode) :
    (fixedTruthy e.node = true →
      ∃ ed ∈ (processEntry ctx hE hT acc e).edges,
        ed.from_ = "materialize:" ++ optStr e.node.chapter_number) ∧
    (fixedTruthy e.node = false →
      (∃ ed ∈ (processEntry ctx hE hT acc e).edges,
        ed.from_ = "prepare:" ++ optStr e.node.chapter_number) ∧
      (∃ ed ∈ (processEntry ctx hE hT acc e).edges,
        ed.from_ = "write:" ++ optStr e.node.chapter_number) ∧
      (∃ ed ∈ (processEntry ctx hE hT acc e).edges,
        ed.from_ = "verify:" ++ optStr e.node.chapter_number) ∧
      ((hE || hT) = true →
        ∃ ed ∈ (processEntry ctx hE hT acc e).edges,
          ed.from_ = "retrieve:" ++ optStr e.node.chapter_number)) := by
  constructor
  · intro hfix
    unfold processEntry
    dsimp only
    rw [if_pos hfix]
    refine ⟨⟨"materialize:" ++ optStr e.node.chapter_number,
      "assemble:" ++ optStr e.node.chapter_number, "固定章节装配"⟩, ?_, rfl⟩
    exact List.mem_append_right _ (by simp)
  · intro hfix
    unfold processEntry
    dsimp only
    rw [if_neg (by rw [hfix]; exact Bool.false_ne_true)]
    by_cases hor : (hE || hT) = true
    · simp only [hor, if_true]
      refine ⟨⟨⟨"prepare:" ++ optStr e.node.chapter_number,
          "retrieve:" ++ optStr e.node.chapter_number, "检索前置"⟩, ?_, rfl⟩,
        ⟨⟨"write:" ++ optStr e.node.chapter_number,
          "verify:" ++ optStr e.node.chapter_number, "校验前置"⟩, ?_, rfl⟩,
        ⟨⟨"verify:" ++ optStr e.node.chapter_number,
          "assemble:" ++ optStr e.node.chapter_number, "装配前置"⟩, ?_, rfl⟩,
        fun _ => ⟨⟨"retrieve:" ++ optStr e.node.chapter_number,
          "write:" ++ optStr e.node.chapter_number, "写作依赖"⟩, ?_, rfl⟩⟩
      · apply List.mem_append_left
        apply List.mem_append_left
        apply List.mem_append_left
        exact List.mem_append_right _ (by simp)
      · apply List.mem_append_left
        exact List.mem_append_right _ (by simp)
      · exact List.mem_append_right _ (by simp)
      · apply List.mem_append_left
        apply List.mem_append_left
        exact List.mem_append_right _ (by simp)
    · have hor2 : (hE || hT) = false := (Bool.not_eq_true _).mp hor
      simp only [hor2, Bool.false_eq_true, if_false]
      refine ⟨⟨⟨"prepare:" ++ optStr e.node.chapter_number,
          "write:" ++ optStr e.node.chapter_number, "写作依赖"⟩, ?_, rfl⟩,
        ⟨⟨"write:" ++ optStr e.node.chapter_number,
          "verify:" ++ optStr e.node.chapter_number, "校验前置"⟩, ?_, rfl⟩,
        ⟨⟨"verify:" ++ optStr e.node.chapter_number,
          "assemble:" ++ optStr e.node.chapter_number, "装配前置"⟩, ?_, rfl⟩,
        fun habs => habs.elim⟩
      · apply List.mem_append_left
        apply List.mem_append_left
        exact List.mem_append_right _ (by simp)
      · apply List.mem_append_left
        exact List.mem_append_right _ (by simp)
      · exact List.mem_append_right _ (by simp)

theorem foldl_processEntry_edges_exist (ctx : PlannerContext) (hE hT : Bool)
    (L : List FlattenedOutlineNode) (acc : BuildAcc) :
    ∀ e ∈ L,
    (fixedTruthy e.node = true →
      ∃ ed ∈ (List.foldl (processEntry ctx hE hT) acc L).edges,
        ed.from_ = "materialize:" ++ optStr e.node.chapter_number) ∧
    (fixedTruthy e.node = false →
      (∃ ed ∈ (List.foldl (processEntry ctx hE hT) acc L).edges,
        ed.from_ = "prepare:" ++ optStr e.node.chapter_number) ∧
      (∃ ed ∈ (List.foldl (processEntry ctx hE hT) acc L).edges,
        ed.from_ = "write:" ++ optStr e.node.chapter_number) ∧
      (∃ ed ∈ (List.foldl (processEntry ctx hE hT) acc L).edges,
        ed.from_ = "verify:" ++ optStr e.node.chapter_number) ∧
      ((hE || hT) = true →
        ∃ ed ∈ (List.foldl (processEntry ctx hE hT) acc L).edges,
          ed.from_ = "retrieve:" ++ optStr e.node.chapter_number)) := by
  induction L generalizing acc with
  | nil => intro e he; cases he
  | cons x xs ih =>
    intro e he
    rw [List.mem_cons] at he
    cases he with
    | inl heq =>
      subst heq
      obtain ⟨h1, h2⟩ := processEntry_edges_exist ctx hE hT acc e
      constructor
      · intro hfix
        obtain ⟨ed, hm, hf⟩ := h1 hfix
        exact ⟨ed, foldl_processEntry_edges_mono ctx hE hT xs _ hm, hf⟩
      · intro hfix
        obtain ⟨⟨e1, m1, f1⟩, ⟨e2, m2, f2⟩, ⟨e3, m3, f3⟩, h4⟩ := h2 hfix
        refine ⟨⟨e1, foldl_processEntry_edges_mono ctx hE hT xs _ m1, f1⟩,
          ⟨e2, foldl_processEntry_edges_mono ctx hE hT xs _ m2, f2⟩,
          ⟨e3, foldl_processEntry_edges_mono ctx hE hT xs _ m3, f3⟩, ?_⟩
        intro hor
        obtain ⟨e4, m4, f4⟩ := h4 hor
        exact ⟨e4, foldl_processEntry_edges_mono ctx hE hT xs _ m4, f4⟩
    | inr hmem => exact ih _ e hmem

end PlannerAgent

namespace PlannerAgent

theorem loop_no_doc (ctx : PlannerContext) (hE hT : Bool)
    (hdoc : ∀ e ∈ flattenOutline ctx.outline, optStr e.node.chapter_number ≠ "document") :
    ∀ n ∈ (List.foldl (processEntry ctx hE hT) ⟨[], []⟩ (flattenOutline ctx.outline)).nodes,
      n.id ≠ "assemble:document" := by
  intro n hn habs
  rcases foldl_processEntry_shapes ctx hE hT _ _ n hn with h | ⟨e, he, _houtl, hsh⟩
  · cases h
  · rcases hsh with ⟨_, _, hid, _⟩ | ⟨_, _, hid, _⟩ | ⟨_, _, hid, _⟩ | ⟨_, _, _, hid, _⟩ |
      ⟨_, _, hid, _⟩ | ⟨_, _, hid, _⟩ | ⟨_, _, hid, _⟩
    · exact materialize_ne_assemble _ _ ((hid.symm.trans habs).trans assembleDoc_eq)
    · exact hdoc e he (string_append_left_cancel ((hid.symm.trans habs).trans assembleDoc_eq))
    · exact prepare_ne_assemble _ _ ((hid.symm.trans habs).trans assembleDoc_eq)
    · exact retrieve_ne_assemble _ _ ((hid.symm.trans habs).trans assembleDoc_eq)
    · exact write_ne_assemble _ _ ((hid.symm.trans habs).trans assembleDoc_eq)
    · exact verify_ne_assemble _ _ ((hid.symm.trans habs).trans assembleDoc_eq)
    · exact hdoc e he (string_append_left_cancel ((hid.symm.trans habs).trans assembleDoc_eq))

theorem loop_assemble_type (ctx : PlannerContext) (hE hT : Bool) :
    ∀ n ∈ (List.foldl (processEntry ctx hE hT) ⟨[], []⟩ (flattenOutline ctx.outline)).nodes,
      ∀ c : String, n.id = "assemble:" ++ c → n.type = .assemble := by
  intro n hn c hid
  rcases foldl_processEntry_shapes ctx hE hT _ _ n hn with h | ⟨e, _he, _houtl, hsh⟩
  · cases h
  · rcases hsh with ⟨_, ht, hid2, _⟩ | ⟨_, ht, _, _⟩ | ⟨_, ht, hid2, _⟩ | ⟨_, _, ht, hid2, _⟩ |
      ⟨_, ht, hid2, _⟩ | ⟨_, ht, hid2, _⟩ | ⟨_, ht, _, _⟩
    · exact absurd (hid2.symm.trans hid) (materialize_ne_assemble _ _)
    · exact ht
    · exact absurd (hid2.symm.trans hid) (prepare_ne_assemble _ _)
    · exact absurd (hid2.symm.trans hid) (retrieve_ne_assemble _ _)
    · exact absurd (hid2.symm.trans hid) (write_ne_assemble _ _)
    · exact absurd (hid2.symm.trans hid) (verify_ne_assemble _ _)
    · exact ht

theorem loop_has_assemble (ctx : PlannerContext) (hE hT : Bool)
    (hne : flattenOutline ctx.outline ≠ []) :
    ∃ n ∈ (List.foldl (processEntry ctx hE hT) ⟨[], []⟩ (flattenOutline ctx.outline)).nodes,
      n.type = .assemble := by
  obtain ⟨e0, he0⟩ := List.exists_mem_of_ne_nil _ hne
  obtain ⟨n, hn, hid⟩ := foldl_processEntry_assemble ctx hE hT _ ⟨[], []⟩ e0 he0
  exact ⟨n, hn, loop_assemble_type ctx hE hT n hn _ hid⟩

end PlannerAgent

/-- Proof-side abbreviation: the accumulator after buildDag's main loop. -/
def loopAcc (ctx : PlannerContext) : PlannerAgent.BuildAcc :=
  List.foldl (PlannerAgent.processEntry ctx
    (List.any ctx.assetsIndex (fun a => a.embed_ready))
    (List.any ctx.assetsIndex (fun a => a.table_ready))) ⟨[], []⟩
    (PlannerAgent.flattenOutline ctx.outline)

theorem loopAcc_eq (ctx : PlannerContext) :
    List.foldl (PlannerAgent.processEntry ctx
      (List.any ctx.assetsIndex (fun a => a.embed_ready))
      (List.any ctx.assetsIndex (fun a => a.table_ready))) ⟨[], []⟩
      (PlannerAgent.flattenOutline ctx.outline) = loopAcc ctx := rfl

/-- Proof-side abbreviation: the synthesized document sink node. -/
def sinkNode (ctx : PlannerContext) : TaskNode :=
  ⟨"assemble:document", .assemble, "汇总装配整份报告", none,
   List.map (fun n => n.id)
     (List.filter (fun n => n.type == TaskType.assemble) (loopAcc ctx).nodes),
   [("stage", .str "final"), ("title", .str "整份报告"), ("outlineId", .str "document")]⟩

def c7EmptyCtx : PlannerContext := ⟨"p1", [], [], [], .undef, .undef, .undef⟩

/-- Counterexample to claim C7 as stated: for the empty outline, buildDag
produces no node at all — in particular no assemble:document sink — since
the sink is only synthesized when at least one per-chapter assemble node
exists. -/
theorem claim_C7_counterexample :
    ((PlannerAgent.buildDag c7EmptyCtx).nodes.any (fun n => n.id == "assemble:document")) = false ∧
    (PlannerAgent.buildDag c7EmptyCtx).nodes.length = 0 := by
  constructor <;>
    (simp only [PlannerAgent.buildDag, PlannerAgent.flattenOutline, PlannerAgent.flattenWalk,
      c7EmptyCtx]
     decide)

/-- Claim C7 (amended): for every outline whose flattening is nonempty and
in which no entry's chapter string is "document", buildDag synthesizes
exactly one assemble:document sink node whose dependencies equal exactly
the ids of all per-chapter assemble nodes, with an edge from each
per-chapter assemble node into the sink; the sink is the DAG's unique
terminal node: no edge leaves it, and every other node has an outgoing
edge. -/
theorem claim_C7_amended_document_sink_aggregation (ctx : PlannerContext)
    (hne : PlannerAgent.flattenOutline ctx.outline ≠ [])
    (hdoc : ∀ e ∈ PlannerAgent.flattenOutline ctx.outline,
      optStr e.node.chapter_number ≠ "document") :
    ((PlannerAgent.buildDag ctx).nodes.filter (fun n => n.id == "assemble:document")).length = 1 ∧
    (∃ sink ∈ (PlannerAgent.buildDag ctx).nodes, sink.id = "assemble:document" ∧
      sink.type = .assemble ∧
      sink.dependencies = ((PlannerAgent.buildDag ctx).nodes.filter
        (fun n => n.type == TaskType.assemble && n.id != "assemble:document")).map (fun n => n.id)) ∧
    (∀ i ∈ ((PlannerAgent.buildDag ctx).nodes.filter
        (fun n => n.type == TaskType.assemble && n.id != "assemble:document")).map (fun n => n.id),
      ∃ ed ∈ (PlannerAgent.buildDag ctx).edges, ed.from_ = i ∧ ed.to_ = "assemble:document") ∧
    (∀ ed ∈ (PlannerAgent.buildDag ctx).edges, ed.from_ ≠ "assemble:document") ∧
    (∀ n ∈ (PlannerAgent.buildDag ctx).nodes, n.id ≠ "assemble:document" →
      ∃ ed ∈ (PlannerAgent.buildDag ctx).edges, ed.from_ = n.id) := by
  have hnodoc := PlannerAgent.loop_no_doc ctx
    (List.any ctx.assetsIndex (fun a => a.embed_ready))
    (List.any ctx.assetsIndex (fun a => a.table_ready)) hdoc
  rw [loopAcc_eq] at hnodoc
  have hcond : (List.filter (fun n => n.type == TaskType.assemble) (loopAcc ctx).nodes).length > 0 := by
    obtain ⟨n, hn, ht⟩ := PlannerAgent.loop_has_assemble ctx
      (List.any ctx.assetsIndex (fun a => a.embed_ready))
      (List.any ctx.assetsIndex (fun a => a.table_ready)) hne
    rw [loopAcc_eq] at hn
    have hmem : n ∈ List.filter (fun n => n.type == TaskType.assemble) (loopAcc ctx).nodes :=
      List.mem_filter.mpr ⟨hn, by simp [ht]⟩
    exact List.length_pos.mpr (List.ne_nil_of_mem hmem)
  have hfresh : (List.any (loopAcc ctx).nodes (fun x => x.id == "assemble:document")) = false := by
    rw [List.any_eq_false]
    intro x hx habs
    exact hnodoc x hx (by simpa using habs)
  have hnodes : (PlannerAgent.buildDag ctx).nodes = (loopAcc ctx).nodes ++ [sinkNode ctx] := by
    unfold PlannerAgent.buildDag
    dsimp only
    rw [loopAcc_eq, if_pos hcond]
    dsimp only
    unfold PlannerAgent.addNode
    rw [if_neg (by rw [hfresh]; exact Bool.false_ne_true)]
    rw [List.append_eq]
    rfl
  have hedges : (PlannerAgent.buildDag ctx).edges = (loopAcc ctx).edges ++
      List.map (fun node => (⟨node.id, "assemble:document", "章节合并"⟩ : TaskEdge))
        (List.filter (fun n => n.type == TaskType.assemble) (loopAcc ctx).nodes) := by
    unfold PlannerAgent.buildDag
    dsimp only
    rw [loopAcc_eq, if_pos hcond]
    dsimp only
    rw [List.append_eq]
  have hfilter : List.filter (fun n => n.type == TaskType.assemble && n.id != "assemble:document")
      (PlannerAgent.buildDag ctx).nodes =
      List.filter (fun n => n.type == TaskType.assemble) (loopAcc ctx).nodes := by
    rw [hnodes, List.filter_append]
    have hsink : List.filter (fun n => n.type == TaskType.assemble && n.id != "assemble:document")
        [sinkNode ctx] = [] := rfl
    rw [hsink, List.append_nil]
    apply List.filter_congr
    intro x hx
    have hxd : (x.id != "assemble:document") = true := by
      simpa [bne_iff_ne] using hnodoc x hx
    rw [hxd, Bool.and_true]
  refine ⟨?_, ?_, ?_, ?_, ?_⟩
  · rw [hnodes, List.filter_append]
    have h1 : List.filter (fun n => n.id == "assemble:document") (loopAcc ctx).nodes = [] := by
      rw [List.filter_eq_nil_iff]
      intro a ha habs
      exact hnodoc a ha (by simpa using habs)
    rw [h1]
    rfl
  · refine ⟨sinkNode ctx, ?_, rfl, rfl, ?_⟩
    · rw [hnodes]
      exact List.mem_append_right _ (by simp)
    · rw [hfilter]
      rfl
  · intro i hi
    rw [hfilter] at hi
    rw [List.mem_map] at hi
    obtain ⟨a, ha, rfl⟩ := hi
    refine ⟨⟨a.id, "assemble:document", "章节合并"⟩, ?_, rfl, rfl⟩
    rw [hedges]
    exact List.mem_append_right _ (List.mem_map_of_mem _ ha)
  · intro ed hed habs
    rw [hedges, List.mem_append] at hed
    rcases hed with hed | hed
    · have hsh := PlannerAgent.foldl_processEntry_edges_shapes ctx
        (List.any ctx.assetsIndex (fun a => a.embed_ready))
        (List.any ctx.assetsIndex (fun a => a.table_ready)) _ _ ed
        (by rw [loopAcc_eq]; exact hed)
      rcases hsh with h | ⟨e, _he, hsh⟩
      · cases h
      · rcases hsh with hf | hf | hf | hf | hf
        · exact materialize_ne_assemble _ _ ((hf.symm.trans habs).trans assembleDoc_eq)
        · exact prepare_ne_assemble _ _ ((hf.symm.trans habs).trans assembleDoc_eq)
        · exact retrieve_ne_assemble _ _ ((hf.symm.trans habs).trans assembleDoc_eq)
        · exact write_ne_assemble _ _ ((hf.symm.trans habs).trans assembleDoc_eq)
        · exact verify_ne_assemble _ _ ((hf.symm.trans habs).trans assembleDoc_eq)
    · rw [List.mem_map] at hed
      obtain ⟨a, ha, rfl⟩ := hed
      exact hnodoc a (List.mem_filter.mp ha).1 habs
  · intro n hn hnd
    rw [hnodes, List.mem_append] at hn
    rcases hn with hn | hn
    · have hsh := PlannerAgent.foldl_processEntry_shapes ctx
        (List.any ctx.assetsIndex (fun a => a.embed_ready))
        (List.any ctx.assetsIndex (fun a => a.table_ready)) _ _ n
        (by rw [loopAcc_eq]; exact hn)
      rcases hsh with h | ⟨e, he, _houtl, hsh⟩
      · cases h
      · have hex := PlannerAgent.foldl_processEntry_edges_exist ctx
          (List.any ctx.assetsIndex (fun a => a.embed_ready))
          (List.any ctx.assetsIndex (fun a => a.table_ready))
          (PlannerAgent.flattenOutline ctx.outline) ⟨[], []⟩ e he
        rw [loopAcc_eq] at hex
        rcases hsh with ⟨hfx, _ht, hid, _⟩ | ⟨_hfx, ht, _hid, _⟩ | ⟨hfx, _ht, hid, _⟩ |
          ⟨hfx, hor, _ht, hid, _⟩ | ⟨hfx, _ht, hid, _⟩ | ⟨hfx, _ht, hid, _⟩ | ⟨_hfx, ht, _hid, _⟩
        · obtain ⟨ed, hm, hf⟩ := hex.1 hfx
          exact ⟨ed, by rw [hedges]; exact List.mem_append_left _ hm, hf.trans hid.symm⟩
        · refine ⟨⟨n.id, "assemble:document", "章节合并"⟩, ?_, rfl⟩
          rw [hedges]
          exact List.mem_append_right _
            (List.mem_map_of_mem _ (List.mem_filter.mpr ⟨hn, by simp [ht]⟩))
        · obtain ⟨ed, hm, hf⟩ := (hex.2 hfx).1
          exact ⟨ed, by rw [hedges]; exact List.mem_append_left _ hm, hf.trans hid.symm⟩
        · obtain ⟨ed, hm, hf⟩ := (hex.2 hfx).2.2.2 hor
          exact ⟨ed, by rw [hedges]; exact List.mem_append_left _ hm, hf.trans hid.symm⟩
        · obtain ⟨ed, hm, hf⟩ := (hex.2 hfx).2.1
          exact ⟨ed, by rw [hedges]; exact List.mem_append_left _ hm, hf.trans hid.symm⟩
        · obtain ⟨ed, hm, hf⟩ := (hex.2 hfx).2.2.1
          exact ⟨ed, by rw [hedges]; exact List.mem_append_left _ hm, hf.trans hid.symm⟩
        · refine ⟨⟨n.id, "assemble:document", "章节合并"⟩, ?_, rfl⟩
          rw [hedges]
          exact List.mem_append_right _
            (List.mem_map_of_mem _ (List.mem_filter.mpr ⟨hn, by simp [ht]⟩))
    · rw [List.mem_singleton] at hn
      subst hn
      exact absurd rfl hnd

/-- Concrete instantiation of the amended C7: the one-chapter outline gets
exactly one assemble:document sink. -/
theorem claim_C7_witness :
    ((PlannerAgent.buildDag c6Ctx0).nodes.filter (fun n => n.id == "assemble:document")).length = 1 := by
  have h := claim_C7_amended_document_sink_aggregation c6Ctx0
    (by
      simp only [PlannerAgent.flattenOutline, PlannerAgent.flattenWalk, c6Ctx0, c5GoodNode]
      simp)
    (by
      intro e he
      simp only [PlannerAgent.flattenOutline, PlannerAgent.flattenWalk, c6Ctx0, c5GoodNode,
        List.append_nil, List.mem_singleton] at he
      subst he
      decide)
  exact h.1

/-! Claim C8: the fixed-content short-circuit. -/

namespace PlannerAgent

theorem addNode_eq_or (nodes : List TaskNode) (m : TaskNode) :
    addNode nodes m = nodes ∨ addNode nodes m = nodes ++ [m] := by
  unfold addNode
  split
  · exact Or.inl rfl
  · exact Or.inr (by rw [List.append_eq])

theorem countP_addNode_false (nodes : List TaskNode) (m : TaskNode) (p : TaskNode → Bool)
    (hp : p m = false) :
    List.countP p (addNode nodes m) = List.countP p nodes := by
  rcases addNode_eq_or nodes m with h | h <;> rw [h]
  rw [List.countP_append]
  simp [List.countP_cons, hp]

theorem countP_chap_processEntry_ne (ctx : PlannerContext) (hE hT : Bool) (acc : BuildAcc)
    (e : FlattenedOutlineNode) (c : String) (hc : optStr e.node.chapter_number ≠ c) :
    List.countP (fun n => n.outlineId == some c) (processEntry ctx hE hT acc e).nodes =
      List.countP (fun n => n.outlineId == some c) acc.nodes := by
  have hp : (e.node.chapter_number == some c) = false := by
    rw [beq_eq_false_iff_ne]
    intro h
    apply hc
    rw [h]
    rfl
  unfold processEntry
  dsimp only
  split
  · rw [countP_addNode_false _ _ _ hp, countP_addNode_false _ _ _ hp]
  · rw [countP_addNode_false _ _ _ hp, countP_addNode_false _ _ _ hp,
      countP_addNode_false _ _ _ hp]
    split
    · rw [countP_addNode_false _ _ _ hp, countP_addNode_false _ _ _ hp]
    · rw [countP_addNode_false _ _ _ hp]

theorem countP_chap_foldl_ne (ctx : PlannerContext) (hE hT : Bool)
    (L : List FlattenedOutlineNode) (acc : BuildAcc) (c : String)
    (h : ∀ e ∈ L, optStr e.node.chapter_number ≠ c) :
    List.countP (fun n => n.outlineId == some c)
        (List.foldl (processEntry ctx hE hT) acc L).nodes =
      List.countP (fun n => n.outlineId == some c) acc.nodes := by
  induction L generalizing acc with
  | nil => rfl
  | cons x xs ih =>
    rw [List.foldl_cons, ih _ (fun e he => h e (List.mem_cons_of_mem _ he)),
      countP_chap_processEntry_ne ctx hE hT acc x c (h x (List.mem_cons_self ..))]

theorem addNode_fresh (nodes : List TaskNode) (m : TaskNode)
    (h : (List.any nodes (fun x => x.id == m.id)) = false) :
    addNode nodes m = nodes ++ [m] := by
  unfold addNode
  rw [if_neg (by rw [h]; exact Bool.false_ne_true), List.append_eq]

theorem countP_chap_processEntry_fixed (ctx : PlannerContext) (hE hT : Bool) (acc : BuildAcc)
    (e : FlattenedOutlineNode) (c : String)
    (hchap : e.node.chapter_number = some c)
    (hfix : fixedTruthy e.node = true)
    (hfresh1 : (List.any acc.nodes
      (fun x => x.id == "materialize:" ++ optStr e.node.chapter_number)) = false)
    (hfresh2 : (List.any acc.nodes
      (fun x => x.id == "assemble:" ++ optStr e.node.chapter_number)) = false) :
    List.countP (fun n => n.outlineId == some c) (processEntry ctx hE hT acc e).nodes =
      List.countP (fun n => n.outlineId == some c) acc.nodes + 2 := by
  have hp : (e.node.chapter_number == some c) = true := by rw [hchap]; simp
  unfold processEntry
  dsimp only
  rw [if_pos hfix]
  rw [addNode_fresh acc.nodes _ hfresh1]
  rw [addNode_fresh _ _ (by
    rw [List.any_append]
    rw [Bool.or_eq_false_iff]
    constructor
    · exact hfresh2
    · simp only [List.any_cons, List.any_nil, Bool.or_false]
      exact beq_eq_false_iff_ne.mpr (materialize_ne_assemble _ _))]
  rw [List.append_assoc, List.countP_append]
  simp [List.countP_cons, hp]

end PlannerAgent

namespace PlannerAgent

theorem fold_no_materialize_id (ctx : PlannerContext) (hE hT : Bool)
    (L : List FlattenedOutlineNode) (c : String)
    (h : ∀ x ∈ L, optStr x.node.chapter_number ≠ c) :
    (List.any (List.foldl (processEntry ctx hE hT) ⟨[], []⟩ L).nodes
      (fun x => x.id == "materialize:" ++ c)) = false := by
  rw [List.any_eq_false]
  intro x hx habs
  have hid : x.id = "materialize:" ++ c := by simpa using habs
  rcases foldl_processEntry_shapes ctx hE hT L ⟨[], []⟩ x hx with hmem | ⟨e', he', _, hsh⟩
  · cases hmem
  · rcases hsh with ⟨_, _, hid2, _⟩ | ⟨_, _, hid2, _⟩ | ⟨_, _, hid2, _⟩ | ⟨_, _, _, hid2, _⟩ |
      ⟨_, _, hid2, _⟩ | ⟨_, _, hid2, _⟩ | ⟨_, _, hid2, _⟩
    · exact h e' he' (string_append_left_cancel (hid2.symm.trans hid))
    · exact string_append_head_ne _ _ (by decide) (by decide) (by decide) (hid2.symm.trans hid)
    · exact string_append_head_ne _ _ (by decide) (by decide) (by decide) (hid2.symm.trans hid)
    · exact string_append_head_ne _ _ (by decide) (by decide) (by decide) (hid2.symm.trans hid)
    · exact string_append_head_ne _ _ (by decide) (by decide) (by decide) (hid2.symm.trans hid)
    · exact string_append_head_ne _ _ (by decide) (by decide) (by decide) (hid2.symm.trans hid)
    · exact string_append_head_ne _ _ (by decide) (by decide) (by decide) (hid2.symm.trans hid)

theorem fold_no_assemble_id (ctx : PlannerContext) (hE hT : Bool)
    (L : List FlattenedOutlineNode) (c : String)
    (h : ∀ x ∈ L, optStr x.node.chapter_number ≠ c) :
    (List.any (List.foldl (processEntry ctx hE hT) ⟨[], []⟩ L).nodes
      (fun x => x.id == "assemble:" ++ c)) = false := by
  rw [List.any_eq_false]
  intro x hx habs
  have hid : x.id = "assemble:" ++ c := by simpa using habs
  rcases foldl_processEntry_shapes ctx hE hT L ⟨[], []⟩ x hx with hmem | ⟨e', he', _, hsh⟩
  · cases hmem
  · rcases hsh with ⟨_, _, hid2, _⟩ | ⟨_, _, hid2, _⟩ | ⟨_, _, hid2, _⟩ | ⟨_, _, _, hid2, _⟩ |
      ⟨_, _, hid2, _⟩ | ⟨_, _, hid2, _⟩ | ⟨_, _, hid2, _⟩
    · exact materialize_ne_assemble _ _ (hid2.symm.trans hid)
    · exact h e' he' (string_append_left_cancel (hid2.symm.trans hid))
    · exact prepare_ne_assemble _ _ (hid2.symm.trans hid)
    · exact retrieve_ne_assemble _ _ (hid2.symm.trans hid)
    · exact write_ne_assemble _ _ (hid2.symm.trans hid)
    · exact verify_ne_assemble _ _ (hid2.symm.trans hid)
    · exact h e' he' (string_append_left_cancel (hid2.symm.trans hid))

theorem processEntry_materialize_exists (ctx : PlannerContext) (hE hT : Bool) (acc : BuildAcc)
    (e : FlattenedOutlineNode) (hfix : fixedTruthy e.node = true) :
    ∃ n ∈ (processEntry ctx hE hT acc e).nodes,
      n.id = "materialize:" ++ optStr e.node.chapter_number := by
  unfold processEntry
  dsimp only
  rw [if_pos hfix]
  exact exists_id_addNode_mono _ (addNode_exists_id _ _)

theorem foldl_materialize_exists (ctx : PlannerContext) (hE hT : Bool)
    (L : List FlattenedOutlineNode) (acc : BuildAcc) :
    ∀ e ∈ L, fixedTruthy e.node = true →
      ∃ n ∈ (List.foldl (processEntry ctx hE hT) acc L).nodes,
        n.id = "materialize:" ++ optStr e.node.chapter_number := by
  induction L generalizing acc with
  | nil => intro e he; cases he
  | cons x xs ih =>
    intro e he hfix
    rw [List.mem_cons] at he
    cases he with
    | inl heq =>
      subst heq
      obtain ⟨n, hm, hid⟩ := processEntry_materialize_exists ctx hE hT acc e hfix
      exact ⟨n, foldl_processEntry_mono ctx hE hT xs _ hm, hid⟩
    | inr hmem => exact ih _ e hmem hfix

theorem processEntry_fixed_edge (ctx : PlannerContext) (hE hT : Bool) (acc : BuildAcc)
    (e : FlattenedOutlineNode) (hfix : fixedTruthy e.node = true) :
    (⟨"materialize:" ++ optStr e.node.chapter_number,
      "assemble:" ++ optStr e.node.chapter_number, "固定章节装配"⟩ : TaskEdge) ∈
      (processEntry ctx hE hT acc e).edges := by
  unfold processEntry
  dsimp only
  rw [if_pos hfix]
  exact List.mem_append_right _ (by simp)

theorem foldl_fixed_edge (ctx : PlannerContext) (hE hT : Bool)
    (L : List FlattenedOutlineNode) (acc : BuildAcc) :
    ∀ e ∈ L, fixedTruthy e.node = true →
      (⟨"materialize:" ++ optStr e.node.chapter_number,
        "assemble:" ++ optStr e.node.chapter_number, "固定章节装配"⟩ : TaskEdge) ∈
        (List.foldl (processEntry ctx hE hT) acc L).edges := by
  induction L generalizing acc with
  | nil => intro e he; cases he
  | cons x xs ih =>
    intro e he hfix
    rw [List.mem_cons] at he
    cases he with
    | inl heq =>
      subst heq
      exact foldl_processEntry_edges_mono ctx hE hT xs _ (processEntry_fixed_edge ctx hE hT acc e hfix)
    | inr hmem => exact ih _ e hmem hfix

end PlannerAgent

theorem buildDag_nodes_mono (ctx : PlannerContext) {n : TaskNode}
    (hn : n ∈ (loopAcc ctx).nodes) : n ∈ (PlannerAgent.buildDag ctx).nodes := by
  unfold PlannerAgent.buildDag
  dsimp only
  rw [loopAcc_eq]
  split
  · exact PlannerAgent.addNode_mem _ hn
  · exact hn

theorem buildDag_edges_mono (ctx : PlannerContext) {ed : TaskEdge}
    (hed : ed ∈ (loopAcc ctx).edges) : ed ∈ (PlannerAgent.buildDag ctx).edges := by
  unfold PlannerAgent.buildDag
  dsimp only
  rw [loopAcc_eq]
  split
  · exact List.mem_append_left _ hed
  · exact hed

theorem buildDag_countP_chap (ctx : PlannerContext) (c : String) :
    List.countP (fun n => n.outlineId == some c) (PlannerAgent.buildDag ctx).nodes =
      List.countP (fun n => n.outlineId == some c) (loopAcc ctx).nodes := by
  unfold PlannerAgent.buildDag
  dsimp only
  rw [loopAcc_eq]
  split
  · rcases PlannerAgent.addNode_eq_or (loopAcc ctx).nodes _ with h | h <;> rw [h]
    rw [List.countP_append]
    simp [List.countP_cons]
  · rfl

namespace PlannerAgent

theorem loop_countP_fixed (ctx : PlannerContext) (hE hT : Bool)
    (L1 L2 : List FlattenedOutlineNode) (e : FlattenedOutlineNode) (c : String)
    (hchap : e.node.chapter_number = some c) (hfix : fixedTruthy e.node = true)
    (h1 : ∀ x ∈ L1, optStr x.node.chapter_number ≠ c)
    (h2 : ∀ x ∈ L2, optStr x.node.chapter_number ≠ c) :
    List.countP (fun n => n.outlineId == some c)
      (List.foldl (processEntry ctx hE hT)
        (processEntry ctx hE hT (List.foldl (processEntry ctx hE hT) ⟨[], []⟩ L1) e) L2).nodes
      = 2 := by
  have hc : optStr e.node.chapter_number = c := by rw [hchap]; rfl
  have hf1 : (List.any (List.foldl (processEntry ctx hE hT) ⟨[], []⟩ L1).nodes
      (fun x => x.id == "materialize:" ++ optStr e.node.chapter_number)) = false := by
    rw [hc]
    exact fold_no_materialize_id ctx hE hT L1 c h1
  have hf2 : (List.any (List.foldl (processEntry ctx hE hT) ⟨[], []⟩ L1).nodes
      (fun x => x.id == "assemble:" ++ optStr e.node.chapter_number)) = false := by
    rw [hc]
    exact fold_no_assemble_id ctx hE hT L1 c h1
  rw [countP_chap_foldl_ne ctx hE hT L2 _ c h2,
    countP_chap_processEntry_fixed ctx hE hT _ e c hchap hfix hf1 hf2,
    countP_chap_foldl_ne ctx hE hT L1 _ c h1]
  rfl

end PlannerAgent

/-- Claim C8: for every flattened outline entry carrying fixedContent (and
under the data model's chapter-number uniqueness), buildDag emits exactly
two task nodes for that chapter — a materialize_fixed node with no
dependencies and an assemble node depending on it — with no prepare,
retrieve, write or verify node for that chapter, and the
materialize_fixed → assemble edge present in the edge list. -/
theorem claim_C8_fixed_content_short_circuit (ctx : PlannerContext)
    (e : FlattenedOutlineNode) (c : String)
    (hnd : (List.map (fun x => optStr x.node.chapter_number)
      (PlannerAgent.flattenOutline ctx.outline)).Nodup)
    (he : e ∈ PlannerAgent.flattenOutline ctx.outline)
    (hfix : PlannerAgent.fixedTruthy e.node = true)
    (hchap : e.node.chapter_number = some c) :
    ((PlannerAgent.buildDag ctx).nodes.filter (fun n => n.outlineId == some c)).length = 2 ∧
    (∃ m ∈ (PlannerAgent.buildDag ctx).nodes, m.id = "materialize:" ++ c ∧
      m.type = TaskType.materialize_fixed ∧ m.dependencies = []) ∧
    (∃ a ∈ (PlannerAgent.buildDag ctx).nodes, a.id = "assemble:" ++ c ∧
      a.type = TaskType.assemble ∧ a.dependencies = ["materialize:" ++ c]) ∧
    (∀ n ∈ (PlannerAgent.buildDag ctx).nodes, n.outlineId = some c →
      n.type = TaskType.materialize_fixed ∨ n.type = TaskType.assemble) ∧
    (∃ ed ∈ (PlannerAgent.buildDag ctx).edges, ed.from_ = "materialize:" ++ c ∧
      ed.to_ = "assemble:" ++ c) := by
  have hc : optStr e.node.chapter_number = c := by rw [hchap]; rfl
  obtain ⟨L1, L2, hsplit⟩ := List.append_of_mem he
  have hndsplit := hnd
  rw [hsplit, List.map_append, List.map_cons, List.nodup_append] at hndsplit
  obtain ⟨hn1, hn2, hdisj⟩ := hndsplit
  obtain ⟨hnotmem, hn2tail⟩ := List.nodup_cons.mp hn2
  have h1 : ∀ x ∈ L1, optStr x.node.chapter_number ≠ c := by
    intro x hx hxc
    exact hdisj (List.mem_map.mpr ⟨x, hx, hxc.trans hc.symm⟩) (List.mem_cons_self ..)
  have h2 : ∀ x ∈ L2, optStr x.node.chapter_number ≠ c := by
    intro x hx hxc
    exact hnotmem (List.mem_map.mpr ⟨x, hx, hxc.trans hc.symm⟩)
  refine ⟨?_, ?_, ?_, ?_, ?_⟩
  · rw [← List.countP_eq_length_filter, buildDag_countP_chap ctx c]
    unfold loopAcc
    rw [hsplit, List.foldl_append, List.foldl_cons]
    exact PlannerAgent.loop_countP_fixed ctx _ _ L1 L2 e c hchap hfix h1 h2
  · obtain ⟨m, hm, hmid⟩ := PlannerAgent.foldl_materialize_exists ctx
      (List.any ctx.assetsIndex (fun a => a.embed_ready))
      (List.any ctx.assetsIndex (fun a => a.table_ready))
      (PlannerAgent.flattenOutline ctx.outline) ⟨[], []⟩ e he hfix
    rw [hc] at hmid
    have hmB : m ∈ (PlannerAgent.buildDag ctx).nodes := by
      apply buildDag_nodes_mono
      rw [← loopAcc_eq]
      exact hm
    rcases PlannerAgent.foldl_processEntry_shapes _ _ _ _ _ m hm with h0 | ⟨e', he', _, hsh⟩
    · cases h0
    · rcases hsh with ⟨_, ht, hid2, hdeps⟩ | ⟨_, _, hid2, _⟩ | ⟨_, _, hid2, _⟩ |
        ⟨_, _, _, hid2, _⟩ | ⟨_, _, hid2, _⟩ | ⟨_, _, hid2, _⟩ | ⟨_, _, hid2, _⟩
      · exact ⟨m, hmB, hmid, ht, hdeps⟩
      · exact (materialize_ne_assemble _ _ (hmid.symm.trans hid2)).elim
      · exact (string_append_head_ne _ _ (by decide) (by decide) (by decide)
          (hid2.symm.trans hmid)).elim
      · exact (string_append_head_ne _ _ (by decide) (by decide) (by decide)
          (hid2.symm.trans hmid)).elim
      · exact (string_append_head_ne _ _ (by decide) (by decide) (by decide)
          (hid2.symm.trans hmid)).elim
      · exact (string_append_head_ne _ _ (by decide) (by decide) (by decide)
          (hid2.symm.trans hmid)).elim
      · exact (materialize_ne_assemble _ _ (hmid.symm.trans hid2)).elim
  · obtain ⟨a, ha, haid⟩ := PlannerAgent.foldl_processEntry_assemble ctx
      (List.any ctx.assetsIndex (fun x => x.embed_ready))
      (List.any ctx.assetsIndex (fun x => x.table_ready))
      (PlannerAgent.flattenOutline ctx.outline) ⟨[], []⟩ e he
    rw [hc] at haid
    have haB : a ∈ (PlannerAgent.buildDag ctx).nodes := by
      apply buildDag_nodes_mono
      rw [← loopAcc_eq]
      exact ha
    rcases PlannerAgent.foldl_processEntry_shapes _ _ _ _ _ a ha with h0 | ⟨e', he', _, hsh⟩
    · cases h0
    · rcases hsh with ⟨_, _, hid2, _⟩ | ⟨_, ht, hid2, hdeps⟩ | ⟨_, _, hid2, _⟩ |
        ⟨_, _, _, hid2, _⟩ | ⟨_, _, hid2, _⟩ | ⟨_, _, hid2, _⟩ | ⟨hf, ht, hid2, hdeps⟩
      · exact (materialize_ne_assemble _ _ (hid2.symm.trans haid)).elim
      · have hec : optStr e'.node.chapter_number = c :=
          string_append_left_cancel (hid2.symm.trans haid)
        rw [hec] at hdeps
        exact ⟨a, haB, haid, ht, hdeps⟩
      · exact (prepare_ne_assemble _ _ (hid2.symm.trans haid)).elim
      · exact (retrieve_ne_assemble _ _ (hid2.symm.trans haid)).elim
      · exact (write_ne_assemble _ _ (hid2.symm.trans haid)).elim
      · exact (verify_ne_assemble _ _ (hid2.symm.trans haid)).elim
      · have hec : optStr e'.node.chapter_number = c :=
          string_append_left_cancel (hid2.symm.trans haid)
        have heq : e' = e := List.inj_on_of_nodup_map hnd he' he (hec.trans hc.symm)
        rw [heq] at hf
        exact (Bool.false_ne_true (hf.symm.trans hfix)).elim
  · intro n hn hout
    rcases PlannerAgent.buildDag_shapes ctx n hn with ⟨e', he', hout', hsh⟩ | ⟨_, houtn, _⟩
    · have hch : e'.node.chapter_number = some c := hout'.symm.trans hout
      have hec : optStr e'.node.chapter_number = c := by rw [hch]; rfl
      have heq : e' = e := List.inj_on_of_nodup_map hnd he' he (hec.trans hc.symm)
      rcases hsh with ⟨_, ht, _⟩ | ⟨_, ht, _⟩ | ⟨hf, _⟩ | ⟨hf, _⟩ | ⟨hf, _⟩ | ⟨hf, _⟩ | ⟨hf, _⟩
      · exact Or.inl ht
      · exact Or.inr ht
      all_goals rw [heq] at hf
      all_goals exact (Bool.false_ne_true (hf.symm.trans hfix)).elim
    · rw [houtn] at hout
      exact Option.noConfusion hout
  · refine ⟨⟨"materialize:" ++ optStr e.node.chapter_number,
      "assemble:" ++ optStr e.node.chapter_number, "固定章节装配"⟩, ?_, ?_, ?_⟩
    · apply buildDag_edges_mono
      rw [← loopAcc_eq]
      exact PlannerAgent.foldl_fixed_edge ctx
        (List.any ctx.assetsIndex (fun x => x.embed_ready))
        (List.any ctx.assetsIndex (fun x => x.table_ready))
        (PlannerAgent.flattenOutline ctx.outline) ⟨[], []⟩ e he hfix
    · rw [hc]
    · rw [hc]

def c8Node : OutlineNode := ⟨some "2", some "Fixed", none, false, some "FIXED", false, []⟩
def c8Ctx : PlannerContext := ⟨"p1", [c5GoodNode, c8Node], [], [], .undef, .undef, .undef⟩

/-- Concrete instantiation of C8: in a two-chapter outline where chapter 2
carries fixed content, the DAG has exactly two nodes for chapter 2 and the
materialize → assemble edge. -/
theorem claim_C8_witness :
    ((PlannerAgent.buildDag c8Ctx).nodes.filter (fun n => n.outlineId == some "2")).length = 2 ∧
    (∃ ed ∈ (PlannerAgent.buildDag c8Ctx).edges, ed.from_ = "materialize:" ++ "2" ∧
      ed.to_ = "assemble:" ++ "2") := by
  have h := claim_C8_fixed_content_short_circuit c8Ctx ⟨c8Node, none⟩ "2"
    (by
      simp only [PlannerAgent.flattenOutline, PlannerAgent.flattenWalk, c8Ctx, c5GoodNode,
        c8Node]
      decide)
    (by
      simp only [PlannerAgent.flattenOutline, PlannerAgent.flattenWalk, c8Ctx, c5GoodNode,
        c8Node]
      simp)
    (by decide)
    rfl
  exact ⟨h.1, h.2.2.2.2⟩
